import Mathlib

/-!
Verification of the YouTube video summarizer script (`app.py`).

Python strings are modelled as `List Char`, machine integers as `Nat`/`Int`,
Python floats as exact rationals (`Rat`), fallible operations as `Option` or
`Except`, and the external services (transcript retrieval, the hosted
generative model, HTTP) as explicit oracle parameters.
-/

namespace App

/-! ### Generic character/string helpers -/

/-- The whitespace characters recognised by Python's `str.split()` /
`str.strip()` (the ASCII ones; the script's inputs are ASCII-oriented). -/
def isPySpace (c : Char) : Bool :=
  c == ' ' || c == '\t' || c == '\n' || c == '\r' || c == '\x0b' || c == '\x0c'

/-- Auxiliary for `pySplit`: accumulates the current (reversed) word. -/
def splitAux : List Char → List Char → List (List Char)
  | [], acc => if acc = [] then [] else [acc.reverse]
  | c :: cs, acc =>
    if isPySpace c then
      if acc = [] then splitAux cs [] else acc.reverse :: splitAux cs []
    else splitAux cs (c :: acc)

/-- Python `s.split()`: split on runs of whitespace, dropping empty pieces. -/
def pySplit (s : List Char) : List (List Char) := splitAux s []

/-- Python `s.lower()` (ASCII case folding, as `Char.toLower`). -/
def pyLower (s : List Char) : List Char := s.map Char.toLower

/-- Python `s.strip()`: remove leading and trailing whitespace. -/
def pyStrip (s : List Char) : List Char :=
  ((s.dropWhile isPySpace).reverse.dropWhile isPySpace).reverse

/-- Auxiliary for `splitNL`: accumulates the current (reversed) line. -/
def splitNLAux : List Char → List Char → List (List Char)
  | [], acc => [acc.reverse]
  | c :: cs, acc =>
    if c = '\n' then acc.reverse :: splitNLAux cs [] else splitNLAux cs (c :: acc)

/-- Python `s.split('\n')`: split at every newline, keeping empty pieces. -/
def splitNL (s : List Char) : List (List Char) := splitNLAux s []

/-- `startsWithCh pat s` is true when `pat` is a prefix of `s`. -/
def startsWithCh : List Char → List Char → Bool
  | [], _ => true
  | _ :: _, [] => false
  | p :: ps, c :: cs => p = c && startsWithCh ps cs

/-- `containsSeq pat s`: `pat` occurs as a contiguous subsequence of `s`
(Python `pat in s`). -/
def containsSeq (pat : List Char) : List Char → Bool
  | [] => startsWithCh pat []
  | c :: cs => startsWithCh pat (c :: cs) || containsSeq pat cs

/-! ### `extract_video_id` (app.py lines 32-42)

The two regexes of `extract_video_id` are embedded directly:

* pattern 1: `(?:youtube\.com\/watch\?v=|youtu\.be\/|youtube\.com\/embed\/)([^&\n?#]+)`
* pattern 2: `youtube\.com\/watch\?.*v=([^&\n?#]+)`

`re.search` semantics: try every start position left to right; at a position,
alternatives are tried in order; `[^&\n?#]+` captures greedily and must be
non-empty; `.*` is greedy and does not cross a newline. -/

/-- A character that terminates the capture group `[^&\n?#]+`. -/
def stopChar (c : Char) : Bool := c == '&' || c == '\n' || c == '?' || c == '#'

/-- Greedy match of `[^&\n?#]*`: the maximal stop-free prefix. -/
def captureRun : List Char → List Char
  | [] => []
  | c :: cs => if stopChar c then [] else c :: captureRun cs

/-- Literal alternative of pattern 1, first branch. -/
def altWatch : List Char := "youtube.com/watch?v=".toList

/-- Literal alternative of pattern 1, second branch. -/
def altShort : List Char := "youtu.be/".toList

/-- Literal alternative of pattern 1, third branch. -/
def altEmbed : List Char := "youtube.com/embed/".toList

/-- Literal prefix of pattern 2. -/
def watchAnchor : List Char := "youtube.com/watch?".toList

/-- Match one literal alternative followed by a non-empty capture at the
current position. -/
def matchAltAt (pat s : List Char) : Option (List Char) :=
  if startsWithCh pat s then
    let cap := captureRun (s.drop pat.length)
    if cap = [] then none else some cap
  else none

/-- Pattern 1 at the current position: alternatives in source order. -/
def matchP1At (s : List Char) : Option (List Char) :=
  (matchAltAt altWatch s) <|> (matchAltAt altShort s) <|> matchAltAt altEmbed s

/-- `re.search` for pattern 1: leftmost matching position. -/
def searchPat1 : List Char → Option (List Char)
  | [] => none
  | c :: cs => matchP1At (c :: cs) <|> searchPat1 cs

/-- `v=([^&\n?#]+)` at the current position. -/
def vEqCapAt (s : List Char) : Option (List Char) :=
  if startsWithCh "v=".toList s then
    let cap := captureRun (s.drop 2)
    if cap = [] then none else some cap
  else none

/-- Greedy `.*v=([^&\n?#]+)`: `.*` never matches a newline and prefers the
longest extent, so the rightmost viable `v=` in the current line wins. -/
def dotStarVEq : List Char → Option (List Char)
  | [] => none
  | c :: cs => (if c ≠ '\n' then dotStarVEq cs else none) <|> vEqCapAt (c :: cs)

/-- Pattern 2 at the current position. -/
def matchP2At (s : List Char) : Option (List Char) :=
  if startsWithCh watchAnchor s then dotStarVEq (s.drop watchAnchor.length)
  else none

/-- `re.search` for pattern 2: leftmost matching position. -/
def searchPat2 : List Char → Option (List Char)
  | [] => none
  | c :: cs => matchP2At (c :: cs) <|> searchPat2 cs

/-- `extract_video_id` (app.py lines 32-42): first pattern that matches
anywhere wins; `None` when neither matches. -/
def extract_video_id (video_url : List Char) : Option (List Char) :=
  searchPat1 video_url <|> searchPat2 video_url

/-! ### `analyze_transcript` (app.py lines 70-92) -/

/-- The fixed stop-word set of app.py line 81. -/
def stop_words : List (List Char) :=
  ["the", "a", "an", "and", "or", "but", "in", "on", "at", "to", "for", "of",
   "with", "by", "is", "are", "was", "were", "be", "been", "have", "has",
   "had", "do", "does", "did", "will", "would", "could", "should", "may",
   "might", "must", "can", "this", "that", "these", "those", "i", "you",
   "he", "she", "it", "we", "they", "me", "him", "her", "us",
   "them"].map String.toList

/-- First-occurrence deduplication: the key iteration order of a Python
`Counter` built from a list (insertion order of first occurrences). -/
def dedupFirst : List (List Char) → List (List Char)
  | [] => []
  | w :: ws => w :: (dedupFirst ws).filter (fun v => ¬ v = w)

/-- The items of `Counter(toks)` in insertion order: each distinct token with
its number of occurrences. -/
def counterItems (toks : List (List Char)) : List (List Char × Nat) :=
  (dedupFirst toks).map (fun w => (w, toks.count w))

/-- Insert into a count-descending list, after all entries with a count at
least as large (so the sort below is stable, like `Counter.most_common`). -/
def insertDesc (x : List Char × Nat) : List (List Char × Nat) → List (List Char × Nat)
  | [] => [x]
  | y :: ys => if y.2 ≤ x.2 then x :: y :: ys else y :: insertDesc x ys

/-- Stable sort by count, descending: the order produced by
`Counter.most_common` (`heapq.nlargest` keeps ties in iteration order). -/
def sortCountDesc : List (List Char × Nat) → List (List Char × Nat)
  | [] => []
  | x :: xs => insertDesc x (sortCountDesc xs)

/-- `Counter(toks).most_common(n)`. -/
def most_common (n : Nat) (toks : List (List Char)) : List (List Char × Nat) :=
  (sortCountDesc (counterItems toks)).take n

/-- Round a rational to the nearest integer, ties to even: Python's `round`
on exact values. -/
def rne (x : Rat) : Int :=
  let f := ⌊x⌋
  let r := x - f
  if r < 1/2 then f
  else if 1/2 < r then f + 1
  else if Even f then f else f + 1

/-- Python `round(x, 2)` on exact rationals. -/
def round2 (x : Rat) : Rat := (rne (x * 100) : Rat) / 100

/-- The dictionary returned by `analyze_transcript`. -/
structure AnalysisResult where
  word_count : Nat
  character_count : Nat
  speaking_speed : Rat
  top_words : List (List Char × Nat)
  estimated_duration : Rat
deriving DecidableEq, Repr

/-- `analyze_transcript` (app.py lines 70-92). Python floats are modelled as
exact rationals. -/
def analyze_transcript (transcript_text : List Char) : AnalysisResult :=
  let words := pySplit transcript_text
  let word_count := words.length
  let estimated_duration : Rat := (transcript_text.length : Rat) / 200
  let speaking_speed : Rat :=
    if 0 < estimated_duration then ((word_count : Rat) / estimated_duration) * 60 else 0
  let toks :=
    (words.filter
      (fun word => ¬ stop_words.contains (pyLower word) && 3 < word.length)).map pyLower
  { word_count := word_count
    character_count := transcript_text.length
    speaking_speed := round2 speaking_speed
    top_words := most_common 10 toks
    estimated_duration := round2 estimated_duration }

/-! ### LLM client (app.py lines 94-118)

The hosted model is an oracle `model : List Char → Except (List Char) (List
Char)` mapping the prompt to the response text, or to an error message when
the call raises. -/

/-- The fixed instruction prefix of the keyword prompt f-string (line 98). -/
def kwTemplate : List Char :=
  ("Extract the main topics and key phrases from this video transcript. " ++
   "Return them as a comma-separated list of the most important topics and keywords: ").toList

/-- The fixed instruction prefix of the sentiment prompt f-string (line 108);
the apostrophe of the source text is spelled `Char.ofNat 39`. -/
def sentTemplate : List Char :=
  "Analyze the sentiment of this video transcript. Determine if it".toList ++
  [Char.ofNat 39] ++
  "s positive, negative, or neutral and provide a brief explanation: ".toList

/-- The prompt sent by `extract_keywords`: template plus `transcript_text[:1000]`. -/
def kwPromptOf (transcript_text : List Char) : List Char :=
  kwTemplate ++ transcript_text.take 1000

/-- The prompt sent by `analyze_sentiment`: template plus `transcript_text[:1000]`. -/
def sentPromptOf (transcript_text : List Char) : List Char :=
  sentTemplate ++ transcript_text.take 1000

/-- `extract_keywords` (app.py lines 94-102): any failure of the model call
is caught and replaced by a fixed fallback string. -/
def extract_keywords (model : List Char → Except (List Char) (List Char))
    (transcript_text : List Char) : List Char :=
  match model (kwPromptOf transcript_text) with
  | .ok r => pyStrip r
  | .error _ => "Unable to extract keywords".toList

/-- `analyze_sentiment` (app.py lines 104-112): any failure of the model call
is caught and replaced by a fixed fallback string. -/
def analyze_sentiment (model : List Char → Except (List Char) (List Char))
    (transcript_text : List Char) : List Char :=
  match model (sentPromptOf transcript_text) with
  | .ok r => pyStrip r
  | .error _ => "Unable to analyze sentiment".toList

/-- `generate_gemini_content` (app.py lines 114-118): no `try`, so a failing
model call propagates to the caller. -/
def generate_gemini_content (model : List Char → Except (List Char) (List Char))
    (transcript_text prompt : List Char) : Except (List Char) (List Char) :=
  model (transcript_text ++ prompt)

/-! ### `get_video_metadata` (app.py lines 44-68)

HTTP is an oracle `http : List Char → Except (List Char) (List Char)` from
the request URL to the body of the response (`response.text`), or to an error
message when the request raises. -/

/-- Match `<title>([^<]+)</title>` at the current position: the greedy
capture is the maximal `<`-free run, which must be followed by the closing
tag. -/
def matchTitleAt (s : List Char) : Option (List Char) :=
  if startsWithCh "<title>".toList s then
    let cap := (s.drop 7).takeWhile (fun c => ¬ c = '<')
    if cap = [] then none
    else if startsWithCh "</title>".toList ((s.drop 7).drop cap.length) then some cap
    else none
  else none

/-- `re.search(r'<title>([^<]+)</title>', page)`: leftmost match. -/
def searchTitle : List Char → Option (List Char)
  | [] => none
  | c :: cs => matchTitleAt (c :: cs) <|> searchTitle cs

/-- The literal removed from the scraped title. -/
def ytSuffix : List Char := " - YouTube".toList

/-- Python `t.replace(' - YouTube', '')`: remove every occurrence, scanning
left to right. -/
def removeYT : List Char → List Char
  | [] => []
  | c :: cs =>
    if startsWithCh ytSuffix (c :: cs) then removeYT (cs.drop 9)
    else c :: removeYT cs
termination_by s => s.length
decreasing_by
  · simp [List.length_drop]; omega
  · simp

/-- The record returned by `get_video_metadata`. -/
structure Metadata where
  title : List Char
  video_id : List Char
  url : List Char
deriving DecidableEq, Repr

/-- The canonical watch URL built on app.py line 48 (and again on line 67). -/
def watchUrl (video_id : List Char) : List Char :=
  "https://www.youtube.com/watch?v=".toList ++ video_id

/-- `get_video_metadata` (app.py lines 44-68): scrape the page title; any
exception, or an absent title pattern, yields the placeholder record. -/
def get_video_metadata (http : List Char → Except (List Char) (List Char))
    (video_id : List Char) : Metadata :=
  let url := watchUrl video_id
  match http url with
  | .error _ => { title := "Unknown Title".toList, video_id := video_id, url := url }
  | .ok page =>
    let title :=
      match searchTitle page with
      | some t => removeYT t
      | none => "Unknown Title".toList
    { title := title, video_id := video_id, url := url }

/-! ### `extract_transcript` (app.py lines 120-133)

The transcript service is an oracle `fetchT : List Char → Except (List Char)
(List (List Char))` from the video id to the snippet texts, or to an error
message when the fetch raises. -/

/-- Python truthiness of an optional string: `None` and `""` are falsy. -/
def pyTruthy (o : Option (List Char)) : Bool :=
  match o with
  | none => false
  | some s => ¬ s = []

/-- `extract_transcript` (app.py lines 120-133): id extraction, truthiness
check (`if not video_id`), fetch, `" ".join` of the snippets; any raised
error collapses to `(None, None)`. -/
def extract_transcript (fetchT : List Char → Except (List Char) (List (List Char)))
    (video_url : List Char) : Option (List Char) × Option (List Char) :=
  let video_id := extract_video_id video_url
  if ¬ pyTruthy video_id then (none, none)
  else
    match fetchT (video_id.getD []) with
    | .error _ => (none, none)
    | .ok snippets => (some (List.intercalate [' '] snippets), video_id)

/-! ### Batch processing (app.py lines 286-311)

The loop body reuses `extract_transcript`, `get_video_metadata` and
`generate_gemini_content`; `prompt` is `prompts[summary_type]`, fixed for the
whole batch. A failing summary call has no handler, so it aborts the whole
batch (modelled by the `Except` result). -/

/-- One row of `batch_results`. -/
structure BatchRecord where
  url : List Char
  video_id : List Char
  title : List Char
  summary : List Char
  word_count : Nat
deriving DecidableEq, Repr

/-- Line 287: `[url.strip() for url in batch_urls.split('\n') if url.strip()]`. -/
def parseBatchUrls (batch_urls : List Char) : List (List Char) :=
  (splitNL batch_urls).filterMap
    (fun u => let t := pyStrip u; if t = [] then none else some t)

/-- The `for i, url in enumerate(urls)` loop of app.py lines 295-311:
per-URL transcript failure skips the item; everything else appends a record. -/
def batchLoop (fetchT : List Char → Except (List Char) (List (List Char)))
    (http : List Char → Except (List Char) (List Char))
    (model : List Char → Except (List Char) (List Char))
    (prompt : List Char) : List (List Char) → Except (List Char) (List BatchRecord)
  | [] => .ok []
  | url :: rest =>
    let p := extract_transcript fetchT url
    if pyTruthy p.1 && pyTruthy p.2 then
      let transcript_text := p.1.getD []
      let video_id := p.2.getD []
      let metadata := get_video_metadata http video_id
      match generate_gemini_content model transcript_text prompt with
      | .error e => .error e
      | .ok summary =>
        match batchLoop fetchT http model prompt rest with
        | .error e => .error e
        | .ok rs =>
          .ok ({ url := url, video_id := video_id, title := metadata.title,
                 summary := summary,
                 word_count := (pySplit transcript_text).length } :: rs)
    else batchLoop fetchT http model prompt rest

/-- The whole batch handler: split the text area into URLs, then run the loop. -/
def processBatch (fetchT : List Char → Except (List Char) (List (List Char)))
    (http : List Char → Except (List Char) (List Char))
    (model : List Char → Except (List Char) (List Char))
    (prompt : List Char) (batch_urls : List Char) : Except (List Char) (List BatchRecord) :=
  batchLoop fetchT http model prompt (parseBatchUrls batch_urls)

/-- The loop's acceptance test for one URL (`if transcript_text and video_id`). -/
def acceptsUrl (fetchT : List Char → Except (List Char) (List (List Char)))
    (url : List Char) : Bool :=
  pyTruthy (extract_transcript fetchT url).1 && pyTruthy (extract_transcript fetchT url).2

/-! ### Decimal digits -/

/-- The decimal digit characters (codepoints 48-57; inputs above 9 clamp). -/
def digitChar (n : Nat) : Char :=
  Char.ofNat (48 + min n 9)

/-- The value of a decimal digit character, `none` for a non-digit. -/
def charDigit (c : Char) : Option Nat :=
  if 48 ≤ c.toNat ∧ c.toNat ≤ 57 then some (c.toNat - 48) else none

/-- Decimal rendering of a natural number (Python `str`/`json.dumps`). -/
def natToChars (n : Nat) : List Char :=
  if n < 10 then [digitChar n]
  else natToChars (n / 10) ++ [digitChar (n % 10)]
termination_by n
decreasing_by exact Nat.div_lt_self (by omega) (by omega)

/-- Greedy decimal-digit run, folded into a value. -/
def parseNatAux : Nat → List Char → Nat × List Char
  | acc, [] => (acc, [])
  | acc, c :: cs =>
    match charDigit c with
    | some d => parseNatAux (acc * 10 + d) cs
    | none => (acc, c :: cs)

/-- Parse a non-empty decimal-digit run. -/
def parseNat (s : List Char) : Option (Nat × List Char) :=
  match s with
  | [] => none
  | c :: _ =>
    match charDigit c with
    | some _ => some (parseNatAux 0 s)
    | none => none

/-- A list that does not begin with a decimal digit (so a digit run parsed
in front of it stops exactly there). -/
def headNotDigit : List Char → Bool
  | [] => true
  | c :: _ => (charDigit c).isNone

/-! ### JSON export / import of the analysis record

`export_to_json` (app.py lines 139-142) serializes the analysis dictionary
with `json.dumps(data, indent=2)` (so `ensure_ascii=True`: the output is pure
ASCII, with `\uXXXX` escapes and surrogate pairs) and UTF-8-encodes it into
the byte buffer.  The printer below reproduces that byte-for-byte, except
that Python floats are modelled as exact rationals rendered with exactly two
decimal digits (the record's floats are results of `round(x, 2)`; `repr` of a
float may drop trailing zeros, which no claim depends on).  The reader
(`json_loads_analysis`) is `json.loads` specialized to the schema of this
record: it skips JSON whitespace freely and decodes the full string-escape
grammar.  Lone-surrogate `\uXXXX` escapes, which Python would turn into
unpaired surrogate code units, are unrepresentable in `Char` and rejected. -/

/-- Lowercase hexadecimal digit characters (Python's `'\u%04x'`; inputs
above 15 clamp). -/
def toHexChar (n : Nat) : Char :=
  if n < 10 then Char.ofNat (48 + n) else Char.ofNat (87 + min n 15)

/-- Four-digit hexadecimal rendering of `n < 0x10000`. -/
def toHex4 (n : Nat) : List Char :=
  [toHexChar (n / 4096 % 16), toHexChar (n / 256 % 16),
   toHexChar (n / 16 % 16), toHexChar (n % 16)]

/-- The value of a hexadecimal digit character (either case, as `json.loads`
accepts). -/
def hexCharVal (c : Char) : Option Nat :=
  if 48 ≤ c.toNat ∧ c.toNat ≤ 57 then some (c.toNat - 48)
  else if 97 ≤ c.toNat ∧ c.toNat ≤ 102 then some (c.toNat - 87)
  else if 65 ≤ c.toNat ∧ c.toNat ≤ 70 then some (c.toNat - 55)
  else none

/-- The value of a `\uXXXX` escape body. -/
def hexQuad (h1 h2 h3 h4 : Char) : Option Nat :=
  hexCharVal h1 >>= fun v1 =>
  hexCharVal h2 >>= fun v2 =>
  hexCharVal h3 >>= fun v3 =>
  hexCharVal h4 >>= fun v4 =>
  some (((v1 * 16 + v2) * 16 + v3) * 16 + v4)

/-- `json.dumps` escaping of one character (`py_encode_basestring_ascii`):
named escapes, printable ASCII verbatim, `\uXXXX` otherwise, with surrogate
pairs above the BMP. -/
def escapeChar (c : Char) : List Char :=
  if c = '"' then ['\\', '"']
  else if c = '\\' then ['\\', '\\']
  else if c = '\n' then ['\\', 'n']
  else if c = '\r' then ['\\', 'r']
  else if c = '\t' then ['\\', 't']
  else if c = Char.ofNat 8 then ['\\', 'b']
  else if c = Char.ofNat 12 then ['\\', 'f']
  else if 0x20 ≤ c.toNat ∧ c.toNat ≤ 0x7E then [c]
  else if c.toNat < 0x10000 then '\\' :: 'u' :: toHex4 c.toNat
  else
    let n := c.toNat - 0x10000
    '\\' :: 'u' :: toHex4 (0xD800 + n / 1024) ++
    '\\' :: 'u' :: toHex4 (0xDC00 + n % 1024)

/-- `json.dumps` escaping of a whole string body. -/
def escapeString (s : List Char) : List Char := s.flatMap escapeChar

/-- Single-character escapes accepted after a backslash by `json.loads`. -/
def unescapeChar (e : Char) : Option Char :=
  if e = '"' ∨ e = '\\' ∨ e = '/' then some e
  else if e = 'n' then some '\n'
  else if e = 'r' then some '\r'
  else if e = 't' then some '\t'
  else if e = 'b' then some (Char.ofNat 8)
  else if e = 'f' then some (Char.ofNat 12)
  else none

/-- One step of `json.loads` string scanning (`py_scanstring`): consume a
closing quote (`(none, rest)`), an escape sequence, or a plain character
(`(some ch, rest)`); surrogate escape pairs are combined, lone surrogate
escapes (unrepresentable in `Char`) are rejected. -/
def scanStrStep (c : Char) (rest : List Char) : Option (Option Char × List Char) :=
  if c = '"' then some (none, rest)
  else if c = '\\' then
    match rest with
    | [] => none
    | e :: r2 =>
      if e = 'u' then
        match r2 with
        | h1 :: h2 :: h3 :: h4 :: r3 =>
          match hexQuad h1 h2 h3 h4 with
          | none => none
          | some n =>
            if 0xD800 ≤ n ∧ n ≤ 0xDBFF then
              match r3 with
              | e2 :: u2 :: g1 :: g2 :: g3 :: g4 :: r4 =>
                if e2 = '\\' ∧ u2 = 'u' then
                  match hexQuad g1 g2 g3 g4 with
                  | some m =>
                    if 0xDC00 ≤ m ∧ m ≤ 0xDFFF then
                      some (some (Char.ofNat (0x10000 + (n - 0xD800) * 1024 + (m - 0xDC00))), r4)
                    else none
                  | none => none
                else none
              | _ => none
            else if 0xDC00 ≤ n ∧ n ≤ 0xDFFF then none
            else some (some (Char.ofNat n), r3)
        | _ => none
      else
        match unescapeChar e with
        | some ch => some (some ch, r2)
        | none => none
  else some (some c, rest)

/-- A successful scan step leaves a suffix of the pending characters. -/
theorem scanStrStep_length {c : Char} {rest : List Char} {oc : Option Char}
    {r : List Char} (h : scanStrStep c rest = some (oc, r)) :
    r.length ≤ rest.length := by
  unfold scanStrStep at h
  repeat' split at h
  all_goals
    first
      | (simp only [Option.some.injEq, Prod.mk.injEq] at h
         simp only [h.2, List.length_cons]
         omega)
      | exact absurd h (by simp)

/-- `json.loads` string scanning after the opening quote: iterate
`scanStrStep` until the closing quote. -/
def scanStr : List Char → Option (List Char × List Char)
  | [] => none
  | c :: rest =>
    match h : scanStrStep c rest with
    | none => none
    | some (none, r) => some ([], r)
    | some (some ch, r) => (scanStr r).map (fun p => (ch :: p.1, p.2))
termination_by s => s.length
decreasing_by
  have := scanStrStep_length h
  simp
  omega

/-- Parse a complete JSON string literal. -/
def parseJString (s : List Char) : Option (List Char × List Char) :=
  match s with
  | '"' :: rest => scanStr rest
  | _ => none

/-- JSON whitespace, skipped freely by `json.loads`. -/
def isJWs (c : Char) : Bool := c == ' ' || c == '\t' || c == '\n' || c == '\r'

/-- Drop leading JSON whitespace. -/
def skipJWs (s : List Char) : List Char := s.dropWhile isJWs

/-- Require a literal character. -/
def expectCh (c : Char) (s : List Char) : Option (List Char) :=
  match s with
  | x :: r => if x = c then some r else none
  | [] => none

/-- A rational with two-decimal precision, rendered as Python prints the
corresponding rounded float: optional sign, integer part, two decimals. -/
def ratToChars (q : Rat) : List Char :=
  let m := (q * 100).num
  (if m < 0 then ['-'] else []) ++ natToChars (m.natAbs / 100) ++
  '.' :: [digitChar (m.natAbs % 100 / 10), digitChar (m.natAbs % 100 % 10)]

/-- Parse an unsigned two-decimal number. -/
def parseDecAbs (s : List Char) : Option (Rat × List Char) :=
  parseNat s >>= fun p =>
  match p.2 with
  | '.' :: d1 :: d2 :: r2 =>
    charDigit d1 >>= fun v1 =>
    charDigit d2 >>= fun v2 =>
    some ((p.1 : Rat) + ((v1 * 10 + v2 : Nat) : Rat) / 100, r2)
  | _ => none

/-- Parse a signed two-decimal number. -/
def parseSignedDec (s : List Char) : Option (Rat × List Char) :=
  match s with
  | '-' :: rest => (parseDecAbs rest).map (fun p => (-p.1, p.2))
  | _ => parseDecAbs s

/-- One `(word, count)` pair, as `json.dumps(..., indent=2)` prints it at
depth 2 (a two-element array on its own lines). -/
def pairChars (p : List Char × Nat) : List Char :=
  "[\n      \"".toList ++ escapeString p.1 ++ "\",\n      ".toList ++
  natToChars p.2 ++ "\n    ]".toList

/-- The pairs of `top_words`, joined with the depth-1 item separator. -/
def joinPairs : List (List Char × Nat) → List Char
  | [] => []
  | [p] => pairChars p
  | p :: ps => pairChars p ++ ",\n    ".toList ++ joinPairs ps

/-- The `top_words` array as printed at depth 1 (`[]` when empty). -/
def topWordsChars (l : List (List Char × Nat)) : List Char :=
  match l with
  | [] => "[]".toList
  | _ => "[\n    ".toList ++ joinPairs l ++ "\n  ]".toList

/-- `json.dumps(analysis, indent=2)` for the dictionary built by
`analyze_transcript`, key order as inserted. -/
def json_dumps_analysis (r : AnalysisResult) : List Char :=
  "\x7b\n  \"word_count\": ".toList ++ natToChars r.word_count ++
  ",\n  \"character_count\": ".toList ++ natToChars r.character_count ++
  ",\n  \"speaking_speed\": ".toList ++ ratToChars r.speaking_speed ++
  ",\n  \"top_words\": ".toList ++ topWordsChars r.top_words ++
  ",\n  \"estimated_duration\": ".toList ++ ratToChars r.estimated_duration ++
  "\n\x7d".toList

/-- Parse one string key plus its `':'` separator. -/
def parseKeyCol (key : String) (s : List Char) : Option (List Char) :=
  parseJString (skipJWs s) >>= fun p =>
  if p.1 = key.toList then expectCh ':' (skipJWs p.2) else none

/-- Parse one `(word, count)` pair array. -/
def parsePair (s : List Char) : Option ((List Char × Nat) × List Char) :=
  expectCh '[' (skipJWs s) >>= fun r1 =>
  parseJString (skipJWs r1) >>= fun pw =>
  expectCh ',' (skipJWs pw.2) >>= fun r3 =>
  parseNat (skipJWs r3) >>= fun pn =>
  expectCh ']' (skipJWs pn.2) >>= fun r5 =>
  some ((pw.1, pn.1), r5)

/-- Parse the remaining pairs of a non-empty pair array (fuel bounds the
number of items; each item consumes input, so the input length suffices). -/
def parsePairsAux : Nat → List Char → Option (List (List Char × Nat) × List Char)
  | 0, _ => none
  | fuel + 1, s =>
    parsePair s >>= fun pp =>
    match skipJWs pp.2 with
    | ',' :: r2 => (parsePairsAux fuel r2).map (fun q => (pp.1 :: q.1, q.2))
    | ']' :: r2 => some ([pp.1], r2)
    | _ => none

/-- Parse the `top_words` array. -/
def parsePairList (s : List Char) : Option (List (List Char × Nat) × List Char) :=
  expectCh '[' (skipJWs s) >>= fun r =>
  match skipJWs r with
  | ']' :: r2 => some ([], r2)
  | _ => parsePairsAux (r.length + 1) r

/-- Parse a natural-number member plus its trailing item separator. -/
def parseNatFieldC (key : String) (s : List Char) : Option (Nat × List Char) :=
  (parseKeyCol key s).bind fun r =>
  (parseNat (skipJWs r)).bind fun p =>
  (expectCh ',' (skipJWs p.2)).map fun r2 => (p.1, r2)

/-- Parse a two-decimal-number member plus its trailing item separator. -/
def parseDecFieldC (key : String) (s : List Char) : Option (Rat × List Char) :=
  (parseKeyCol key s).bind fun r =>
  (parseSignedDec (skipJWs r)).bind fun p =>
  (expectCh ',' (skipJWs p.2)).map fun r2 => (p.1, r2)

/-- Parse the `top_words` member plus its trailing item separator. -/
def parseTopWordsFieldC (s : List Char) : Option (List (List Char × Nat) × List Char) :=
  (parseKeyCol "top_words" s).bind fun r =>
  (parsePairList r).bind fun p =>
  (expectCh ',' (skipJWs p.2)).map fun r2 => (p.1, r2)

/-- Parse the final member plus the closing brace, and require the rest of
the input to be whitespace. -/
def parseLastDecField (key : String) (s : List Char) : Option Rat :=
  (parseKeyCol key s).bind fun r =>
  (parseSignedDec (skipJWs r)).bind fun p =>
  (expectCh '\x7d' (skipJWs p.2)).bind fun r2 =>
  if skipJWs r2 = [] then some p.1 else none

/-- `json.loads`, specialized to the schema of the exported analysis record;
requires the whole input to be consumed (modulo trailing whitespace). -/
def json_loads_analysis (s : List Char) : Option AnalysisResult :=
  (expectCh '\x7b' (skipJWs s)).bind fun r1 =>
  (parseNatFieldC "word_count" r1).bind fun pwc =>
  (parseNatFieldC "character_count" pwc.2).bind fun pcc =>
  (parseDecFieldC "speaking_speed" pcc.2).bind fun pss =>
  (parseTopWordsFieldC pss.2).bind fun ptw =>
  (parseLastDecField "estimated_duration" ptw.2).map fun ed =>
  { word_count := pwc.1, character_count := pcc.1,
    speaking_speed := pss.1, top_words := ptw.1,
    estimated_duration := ed }

/-! ### Byte encoding (`.encode()` / `.decode()`) -/

/-- UTF-8 encoding of one character (`str.encode()`). -/
def utf8EncodeChar (c : Char) : List Nat :=
  let n := c.toNat
  if n < 0x80 then [n]
  else if n < 0x800 then [0xC0 + n / 64, 0x80 + n % 64]
  else if n < 0x10000 then [0xE0 + n / 4096, 0x80 + n / 64 % 64, 0x80 + n % 64]
  else [0xF0 + n / 262144, 0x80 + n / 4096 % 64, 0x80 + n / 64 % 64, 0x80 + n % 64]

/-- UTF-8 encoding of a string into a byte buffer. -/
def utf8Encode (s : List Char) : List Nat := s.flatMap utf8EncodeChar

/-- A UTF-8 continuation byte. -/
def contByte (b : Nat) : Bool := 0x80 ≤ b && b < 0xC0

/-- Decode one UTF-8-encoded character: the leading byte `b` plus as many
continuation bytes of `bs` as it announces; rejects stray continuation
bytes, overlong forms, surrogates and values beyond `0x10FFFF`. -/
def utf8DecodeOne (b : Nat) (bs : List Nat) : Option (Char × List Nat) :=
  if b < 0x80 then some (Char.ofNat b, bs)
  else if b < 0xC2 then none
  else if b < 0xE0 then
    match bs with
    | b1 :: r =>
      if contByte b1 then some (Char.ofNat ((b - 0xC0) * 64 + (b1 - 0x80)), r)
      else none
    | [] => none
  else if b < 0xF0 then
    match bs with
    | b1 :: b2 :: r =>
      if contByte b1 && contByte b2 then
        if (b - 0xE0) * 4096 + (b1 - 0x80) * 64 + (b2 - 0x80) < 0x800 ∨
            (0xD800 ≤ (b - 0xE0) * 4096 + (b1 - 0x80) * 64 + (b2 - 0x80) ∧
             (b - 0xE0) * 4096 + (b1 - 0x80) * 64 + (b2 - 0x80) ≤ 0xDFFF) then none
        else some (Char.ofNat ((b - 0xE0) * 4096 + (b1 - 0x80) * 64 + (b2 - 0x80)), r)
      else none
    | _ => none
  else if b < 0xF5 then
    match bs with
    | b1 :: b2 :: b3 :: r =>
      if contByte b1 && contByte b2 && contByte b3 then
        if (b - 0xF0) * 262144 + (b1 - 0x80) * 4096 + (b2 - 0x80) * 64 + (b3 - 0x80)
              < 0x10000 ∨
            0x10FFFF <
              (b - 0xF0) * 262144 + (b1 - 0x80) * 4096 + (b2 - 0x80) * 64 + (b3 - 0x80)
            then none
        else some (Char.ofNat ((b - 0xF0) * 262144 + (b1 - 0x80) * 4096 +
          (b2 - 0x80) * 64 + (b3 - 0x80)), r)
      else none
    | _ => none
  else none

/-- The remainder left by a successful `utf8DecodeOne` is a suffix of the
continuation bytes (needed for the decoder's termination). -/
theorem utf8DecodeOne_length {b : Nat} {bs : List Nat} {c : Char} {r : List Nat}
    (h : utf8DecodeOne b bs = some (c, r)) : r.length ≤ bs.length := by
  unfold utf8DecodeOne at h
  split at h
  · simp only [Option.some.injEq, Prod.mk.injEq] at h
    simp only [h.2]
    omega
  · split at h
    · exact absurd h (by simp)
    · split at h
      · split at h
        · split at h
          · simp only [Option.some.injEq, Prod.mk.injEq] at h
            simp only [h.2, List.length_cons]
            omega
          · exact absurd h (by simp)
        · exact absurd h (by simp)
      · split at h
        · split at h
          · split at h
            · split at h
              · exact absurd h (by simp)
              · simp only [Option.some.injEq, Prod.mk.injEq] at h
                simp only [h.2, List.length_cons]
                omega
            · exact absurd h (by simp)
          · exact absurd h (by simp)
        · split at h
          · split at h
            · split at h
              · split at h
                · exact absurd h (by simp)
                · simp only [Option.some.injEq, Prod.mk.injEq] at h
                  simp only [h.2, List.length_cons]
                  omega
              · exact absurd h (by simp)
            · exact absurd h (by simp)
          · exact absurd h (by simp)

/-- Strict UTF-8 decoding (`bytes.decode()`): decode characters one at a
time until the buffer is exhausted (each step consumes the leading byte, so
the input shrinks). -/
def utf8Decode : List Nat → Option (List Char)
  | [] => some []
  | b :: bs =>
    match h : utf8DecodeOne b bs with
    | none => none
    | some (c, r) => (utf8Decode r).map (fun l => c :: l)
termination_by l => l.length
decreasing_by
  have hr := utf8DecodeOne_length h
  simp
  omega

/-- `export_to_text` (app.py lines 135-137): the byte buffer of the encoded
content. -/
def export_to_text (content : List Char) : List Nat := utf8Encode content

/-- `export_to_json` (app.py lines 139-142) applied to the analysis record:
`json.dumps(data, indent=2)`, then `.encode()` into the byte buffer. -/
def export_to_json (data : AnalysisResult) : List Nat :=
  utf8Encode (json_dumps_analysis data)

/-! ## Lemmas -/

/-- Every word produced by `splitAux` is non-empty and whitespace-free,
provided the pending accumulator is whitespace-free. -/
theorem splitAux_sound :
    ∀ (s acc : List Char), (∀ c ∈ acc, isPySpace c = false) →
      ∀ w ∈ splitAux s acc, w ≠ [] ∧ ∀ c ∈ w, isPySpace c = false := by
  intro s
  induction s with
  | nil =>
    intro acc hacc w hw
    by_cases h : acc = []
    · simp [splitAux, h] at hw
    · simp [splitAux, h] at hw
      subst hw
      refine ⟨by simpa using h, ?_⟩
      intro c hc
      exact hacc c (by simpa using hc)
  | cons c cs ih =>
    intro acc hacc w hw
    by_cases hsp : isPySpace c
    · by_cases h : acc = []
      · simp [splitAux, hsp, h] at hw
        exact ih [] (by simp) w hw
      · simp [splitAux, hsp, h] at hw
        rcases hw with hw | hw
        · subst hw
          refine ⟨by simpa using h, ?_⟩
          intro d hd
          exact hacc d (by simpa using hd)
        · exact ih [] (by simp) w hw
    · simp only [splitAux, hsp, if_neg, Bool.false_eq_true, not_false_eq_true,
        if_false] at hw
      refine ih (c :: acc) ?_ w hw
      intro d hd
      rcases List.mem_cons.mp hd with h | h
      · subst h; simpa using hsp
      · exact hacc d h

/-- Every token of `pySplit` is non-empty and whitespace-free. -/
theorem pySplit_sound (s : List Char) :
    ∀ w ∈ pySplit s, w ≠ [] ∧ ∀ c ∈ w, isPySpace c = false :=
  splitAux_sound s [] (by simp)

/-- C2: `analyze_transcript` reports the number of whitespace-delimited
tokens as `word_count` and the exact string length as `character_count`
(and `pySplit` really produces whitespace-delimited tokens: each one is
non-empty and contains no whitespace). -/
theorem analyze_transcript_counts (t : List Char) :
    (analyze_transcript t).word_count = (pySplit t).length ∧
    (analyze_transcript t).character_count = t.length ∧
    (∀ w ∈ pySplit t, w ≠ [] ∧ ∀ c ∈ w, isPySpace c = false) :=
  ⟨rfl, rfl, pySplit_sound t⟩

/-- Membership after `insertDesc` is membership in the inserted element or
the original list. -/
theorem mem_insertDesc {x y : List Char × Nat} :
    ∀ {l : List (List Char × Nat)}, y ∈ insertDesc x l → y = x ∨ y ∈ l := by
  intro l
  induction l with
  | nil => intro h; simpa [insertDesc] using h
  | cons z zs ih =>
    intro h
    by_cases hz : z.2 ≤ x.2
    · simp [insertDesc, hz] at h
      rcases h with h | h | h
      · exact Or.inl h
      · exact Or.inr (by simp [h])
      · exact Or.inr (by simp [h])
    · simp [insertDesc, hz] at h
      rcases h with h | h
      · exact Or.inr (by simp [h])
      · rcases ih h with h' | h'
        · exact Or.inl h'
        · exact Or.inr (by simp [h'])

/-- `sortCountDesc` permutes, so membership is preserved. -/
theorem mem_sortCountDesc {y : List Char × Nat} :
    ∀ {l : List (List Char × Nat)}, y ∈ sortCountDesc l → y ∈ l := by
  intro l
  induction l with
  | nil => intro h; simp [sortCountDesc] at h
  | cons x xs ih =>
    intro h
    rcases mem_insertDesc h with h' | h'
    · simp [h']
    · exact List.mem_cons_of_mem _ (ih h')

/-- `dedupFirst` keeps only elements of the original list. -/
theorem mem_dedupFirst {w : List Char} :
    ∀ {l : List (List Char)}, w ∈ dedupFirst l → w ∈ l := by
  intro l
  induction l with
  | nil => intro h; simp [dedupFirst] at h
  | cons x xs ih =>
    intro h
    simp [dedupFirst] at h
    rcases h with h | ⟨h, -⟩
    · simp [h]
    · exact List.mem_cons_of_mem _ (ih h)

/-- C3: `top_words` has at most 10 entries, each of them a case-folded
token of the transcript of length at least 4 that is not a stop word. -/
theorem analyze_transcript_top_words (t : List Char) :
    (analyze_transcript t).top_words.length ≤ 10 ∧
    ∀ p ∈ (analyze_transcript t).top_words,
      3 < p.1.length ∧ stop_words.contains p.1 = false ∧
      ∃ w ∈ pySplit t, p.1 = pyLower w := by
  constructor
  · exact List.length_take_le 10 _
  · intro p hp
    have hp' := List.mem_of_mem_take hp
    have hp'' := mem_sortCountDesc hp'
    simp only [counterItems, List.mem_map] at hp''
    obtain ⟨w, hw, hwp⟩ := hp''
    have hw' := mem_dedupFirst hw
    simp only [List.mem_map, List.mem_filter] at hw'
    obtain ⟨v, ⟨hv, hvp⟩, hvw⟩ := hw'
    have hp1 : p.1 = pyLower v := by rw [← hwp, ← hvw]
    have hlen : v.length = (pyLower v).length := (List.length_map _ _).symm
    simp only [Bool.and_eq_true, Bool.not_eq_true', decide_eq_true_eq] at hvp
    refine ⟨?_, ?_, v, hv, hp1⟩
    · rw [hp1, ← hlen]; exact hvp.2
    · rw [hp1]; exact Bool.eq_false_iff.mpr hvp.1

/-- Round-to-nearest-even never goes below the floor. -/
theorem rne_nonneg {x : Rat} (hx : 0 ≤ x) : 0 ≤ rne x := by
  have h0 : (0 : Int) ≤ ⌊x⌋ := Int.floor_nonneg.mpr hx
  simp only [rne]
  split
  · exact h0
  · split
    · omega
    · split
      · exact h0
      · omega

/-- `round(x, 2)` of a non-negative value is non-negative. -/
theorem round2_nonneg {x : Rat} (hx : 0 ≤ x) : 0 ≤ round2 x := by
  unfold round2
  have : (0 : Rat) ≤ (rne (x * 100) : Rat) := by
    exact_mod_cast rne_nonneg (by positivity)
  positivity

/-- `round(0, 2) = 0`. -/
theorem round2_zero : round2 0 = 0 := by
  norm_num [round2, rne]

/-- C5: the reported speaking speed is non-negative, and it is `0` whenever
the estimated duration `len(transcript)/200` is `0` (the guard in the code
never divides by a zero duration). -/
theorem analyze_transcript_speaking_speed (t : List Char) :
    0 ≤ (analyze_transcript t).speaking_speed ∧
    ((t.length : Rat) / 200 = 0 → (analyze_transcript t).speaking_speed = 0) := by
  simp only [analyze_transcript]
  constructor
  · apply round2_nonneg
    split
    · rename_i h
      exact mul_nonneg (div_nonneg (Nat.cast_nonneg _) (le_of_lt h)) (by norm_num)
    · exact le_refl 0
  · intro h
    rw [if_neg (by rw [h]; exact lt_irrefl 0)]
    exact round2_zero

/-- C4 (counterexample): in the spec's example transcript, `"dog"` has length
3, so the `len(word) > 3` filter excludes it; it is not a top word at all,
let alone one with count 3. -/
theorem c4_dog_excluded :
    ("dog".toList, 3) ∉
      (analyze_transcript
        "the quick brown fox jumps over the lazy dog dog dog".toList).top_words := by
  decide

/-- C4 (amended): the example transcript has word count 11 and top words
`quick`, `brown`, `jumps`, `over`, `lazy`, each with count 1; `dog` (length
3) and `fox` (length 3) are excluded by the minimum-length filter and `the`
by the stop-word filter. -/
theorem c4_example_analysis :
    (analyze_transcript
      "the quick brown fox jumps over the lazy dog dog dog".toList).word_count = 11 ∧
    (analyze_transcript
      "the quick brown fox jumps over the lazy dog dog dog".toList).top_words =
      [("quick".toList, 1), ("brown".toList, 1), ("jumps".toList, 1),
       ("over".toList, 1), ("lazy".toList, 1)] := by
  constructor
  · decide
  · decide

/-- C10: `extract_transcript` returns either `(None, None)` or a pair with
both components present - never a mixed pair. -/
theorem extract_transcript_pair
    (fetchT : List Char → Except (List Char) (List (List Char))) (url : List Char) :
    extract_transcript fetchT url = (none, none) ∨
    ∃ t v, extract_transcript fetchT url = (some t, some v) := by
  unfold extract_transcript
  cases hv : extract_video_id url with
  | none => simp [pyTruthy]
  | some v =>
    by_cases hne : v = []
    · simp [pyTruthy, hne]
    · cases hf : fetchT v with
      | error e => left; simp [pyTruthy, hne, hf]
      | ok snippets =>
        right
        exact ⟨List.intercalate [' '] snippets, v, by simp [pyTruthy, hne, hf]⟩

/-- C9: `get_video_metadata` always returns a record carrying the input id
and its canonical watch URL, and the title falls back to `"Unknown Title"`
both when the HTTP request raises and when the page has no title pattern. -/
theorem get_video_metadata_spec
    (http : List Char → Except (List Char) (List Char)) (vid : List Char) :
    (get_video_metadata http vid).video_id = vid ∧
    (get_video_metadata http vid).url = watchUrl vid ∧
    (∀ e, http (watchUrl vid) = .error e →
      (get_video_metadata http vid).title = "Unknown Title".toList) ∧
    (∀ page, http (watchUrl vid) = .ok page → searchTitle page = none →
      (get_video_metadata http vid).title = "Unknown Title".toList) := by
  unfold get_video_metadata
  cases h : http (watchUrl vid) with
  | error e => simp [h]
  | ok page =>
    refine ⟨by simp [h], by simp [h], by simp [h], ?_⟩
    intro page' hp hsearch
    have hpp : page = page' := Except.ok.inj hp
    subst hpp
    simp [h, hsearch]

/-- C8: the keyword and sentiment operations see only the first 1000
characters of the transcript; when the model call fails they return their
fixed fallback strings (and, being total functions, never raise); the
summary operation propagates the failure unchanged. -/
theorem llm_spec (model : List Char → Except (List Char) (List Char))
    (t t' p e : List Char) (h : t.take 1000 = t'.take 1000) :
    extract_keywords model t = extract_keywords model t' ∧
    analyze_sentiment model t = analyze_sentiment model t' ∧
    extract_keywords (fun _ => Except.error e) t = "Unable to extract keywords".toList ∧
    analyze_sentiment (fun _ => Except.error e) t = "Unable to analyze sentiment".toList ∧
    generate_gemini_content (fun _ => Except.error e) t p = Except.error e := by
  refine ⟨?_, ?_, rfl, rfl, rfl⟩
  · unfold extract_keywords kwPromptOf
    rw [h]
  · unfold analyze_sentiment sentPromptOf
    rw [h]

/-- The batch loop, under a model that answers every prompt, returns one
record per accepted URL, in input order. -/
theorem batchLoop_ok (fetchT : List Char → Except (List Char) (List (List Char)))
    (http : List Char → Except (List Char) (List Char))
    (model : List Char → Except (List Char) (List Char)) (prompt : List Char)
    (hgen : ∀ s, ∃ r, model s = Except.ok r) :
    ∀ urls, ∃ rs, batchLoop fetchT http model prompt urls = .ok rs ∧
      rs.map (fun r => r.url) = urls.filter (acceptsUrl fetchT) := by
  intro urls
  induction urls with
  | nil => exact ⟨[], rfl, rfl⟩
  | cons url rest ih =>
    obtain ⟨rs, hrs, hmap⟩ := ih
    by_cases hacc : acceptsUrl fetchT url
    · obtain ⟨summary, hs⟩ :=
        hgen ((extract_transcript fetchT url).1.getD [] ++ prompt)
      refine ⟨{ url := url,
                video_id := (extract_transcript fetchT url).2.getD [],
                title := (get_video_metadata http
                  ((extract_transcript fetchT url).2.getD [])).title,
                summary := summary,
                word_count :=
                  (pySplit ((extract_transcript fetchT url).1.getD [])).length } :: rs,
              ?_, ?_⟩
      · simp only [batchLoop]
        rw [if_pos (by exact hacc), generate_gemini_content, hs, hrs]
      · simp [List.filter_cons, hacc, hmap]
    · refine ⟨rs, ?_, ?_⟩
      · simp only [batchLoop]
        rw [if_neg (by exact hacc), hrs]
      · simp [List.filter_cons, Bool.eq_false_iff.mpr hacc, hmap]

/-- C7: with a model that answers every prompt, the batch handler yields one
record per URL accepted by the transcript-extraction check, in input order,
excluding exactly the failing URLs; blank-line-only input yields no URLs and
an empty result list. -/
theorem batch_processing_spec
    (fetchT : List Char → Except (List Char) (List (List Char)))
    (http : List Char → Except (List Char) (List Char))
    (model : List Char → Except (List Char) (List Char))
    (prompt input : List Char)
    (hgen : ∀ s, ∃ r, model s = Except.ok r) :
    (∃ rs, processBatch fetchT http model prompt input = .ok rs ∧
       rs.map (fun r => r.url) = (parseBatchUrls input).filter (acceptsUrl fetchT)) ∧
    ((∀ u ∈ splitNL input, pyStrip u = []) →
       parseBatchUrls input = [] ∧
       processBatch fetchT http model prompt input = .ok []) := by
  constructor
  · exact batchLoop_ok fetchT http model prompt hgen (parseBatchUrls input)
  · intro hblank
    have hurls : parseBatchUrls input = [] := by
      unfold parseBatchUrls
      refine List.filterMap_eq_nil_iff.mpr ?_
      intro u hu
      simp [hblank u hu]
    exact ⟨hurls, by unfold processBatch; rw [hurls]; rfl⟩

/-- A stop-free list is its own greedy capture. -/
theorem captureRun_all : ∀ {l : List Char}, (∀ c ∈ l, stopChar c = false) →
    captureRun l = l := by
  intro l
  induction l with
  | nil => intro _; rfl
  | cons c cs ih =>
    intro h
    have hc : stopChar c = false := h c (by simp)
    simp [captureRun, hc, ih (fun d hd => h d (List.mem_cons_of_mem _ hd))]

/-- Every list extends to a `startsWithCh` match of itself. -/
theorem startsWithCh_append_self : ∀ (p r : List Char), startsWithCh p (p ++ r) = true := by
  intro p
  induction p with
  | nil => intro r; rfl
  | cons c cs ih => intro r; simp [startsWithCh, ih r]

/-- A match of a longer literal is a match of its prefix. -/
theorem startsWithCh_mono : ∀ (p q s : List Char),
    startsWithCh (p ++ q) s = true → startsWithCh p s = true := by
  intro p
  induction p with
  | nil => intro q s _; rfl
  | cons c cs ih =>
    intro q s h
    cases s with
    | nil => simp [startsWithCh] at h
    | cons d ds =>
      simp only [List.cons_append, startsWithCh, Bool.and_eq_true] at h ⊢
      exact ⟨h.1, ih q ds h.2⟩

/-- A literal alternative matches itself followed by a non-empty stop-free
capture. -/
theorem matchAltAt_self (p id : List Char) (hne : id ≠ [])
    (hcap : ∀ c ∈ id, stopChar c = false) :
    matchAltAt p (p ++ id) = some id := by
  simp [matchAltAt, startsWithCh_append_self, List.drop_left, captureRun_all hcap, hne]

/-- A failed literal prefix yields no alternative match. -/
theorem matchAltAt_none {p s : List Char} (h : startsWithCh p s = false) :
    matchAltAt p s = none := by
  simp [matchAltAt, h]

/-- `startsWithCh` fails as soon as the first characters disagree. -/
theorem startsWithCh_cons_false {p c : Char} {ps cs : List Char} (h : ¬ p = c) :
    startsWithCh (p :: ps) (c :: cs) = false := by
  simp [startsWithCh, h]

/-- The `cons` unfolding of the pattern-1 search. -/
theorem searchPat1_cons (c : Char) (cs : List Char) :
    searchPat1 (c :: cs) = (matchP1At (c :: cs) <|> searchPat1 cs) := rfl

/-- The `cons` unfolding of the pattern-2 search. -/
theorem searchPat2_cons (c : Char) (cs : List Char) :
    searchPat2 (c :: cs) = (matchP2At (c :: cs) <|> searchPat2 cs) := rfl

/-- Pattern 1 fails at every position that does not start with `y`. -/
theorem matchP1At_not_y {c : Char} (cs : List Char) (h : ¬ c = 'y') :
    matchP1At (c :: cs) = none := by
  have hy : ¬ ('y' : Char) = c := fun hcy => h hcy.symm
  have hW : startsWithCh altWatch (c :: cs) = false := by
    rw [show altWatch = 'y' :: "outube.com/watch?v=".toList from rfl]
    exact startsWithCh_cons_false hy
  have hS : startsWithCh altShort (c :: cs) = false := by
    rw [show altShort = 'y' :: "outu.be/".toList from rfl]
    exact startsWithCh_cons_false hy
  have hE : startsWithCh altEmbed (c :: cs) = false := by
    rw [show altEmbed = 'y' :: "outube.com/embed/".toList from rfl]
    exact startsWithCh_cons_false hy
  simp [matchP1At, matchAltAt_none hW, matchAltAt_none hS, matchAltAt_none hE]

/-- `re.search` skips any prefix free of `y`. -/
theorem searchPat1_skip : ∀ (pre rest : List Char), (∀ c ∈ pre, ¬ c = 'y') →
    searchPat1 (pre ++ rest) = searchPat1 rest := by
  intro pre
  induction pre with
  | nil => intro rest _; rfl
  | cons c cs ih =>
    intro rest h
    have hc : ¬ c = 'y' := h c (by simp)
    rw [show (c :: cs) ++ rest = c :: (cs ++ rest) from rfl, searchPat1_cons,
      matchP1At_not_y (cs ++ rest) hc, Option.none_orElse]
    exact ih rest (fun d hd => h d (List.mem_cons_of_mem _ hd))

/-- A position where pattern 1 matches ends the search. -/
theorem searchPat1_here {s x : List Char} (hne : s ≠ [])
    (h : matchP1At s = some x) : searchPat1 s = some x := by
  cases s with
  | nil => exact absurd rfl hne
  | cons c cs => simp [searchPat1, h]

/-- Pattern 1 at a `watch?v=` URL position returns the identifier. -/
theorem matchP1At_watch (id : List Char) (hne : id ≠ [])
    (hcap : ∀ c ∈ id, stopChar c = false) :
    matchP1At (altWatch ++ id) = some id := by
  simp [matchP1At, matchAltAt_self altWatch id hne hcap]

/-- Pattern 1 at a `youtu.be/` URL position returns the identifier (the
first alternative fails on the fifth character). -/
theorem matchP1At_short (id : List Char) (hne : id ≠ [])
    (hcap : ∀ c ∈ id, stopChar c = false) :
    matchP1At (altShort ++ id) = some id := by
  have hW : matchAltAt altWatch (altShort ++ id) = none := rfl
  simp [matchP1At, hW, matchAltAt_self altShort id hne hcap]

/-- Pattern 1 at an `embed/` URL position returns the identifier (the first
two alternatives fail inside the literal region). -/
theorem matchP1At_embed (id : List Char) (hne : id ≠ [])
    (hcap : ∀ c ∈ id, stopChar c = false) :
    matchP1At (altEmbed ++ id) = some id := by
  have hW : matchAltAt altWatch (altEmbed ++ id) = none := rfl
  have hS : matchAltAt altShort (altEmbed ++ id) = none := rfl
  simp [matchP1At, hW, hS, matchAltAt_self altEmbed id hne hcap]

/-- Without any of the three anchor substrings, pattern 1 never matches. -/
theorem searchPat1_none : ∀ (s : List Char),
    containsSeq altShort s = false → containsSeq altEmbed s = false →
    containsSeq watchAnchor s = false → searchPat1 s = none := by
  intro s
  induction s with
  | nil => intro _ _ _; rfl
  | cons c cs ih =>
    intro h1 h2 h3
    simp only [containsSeq, Bool.or_eq_false_iff] at h1 h2 h3
    have hW : startsWithCh altWatch (c :: cs) = false := by
      cases hst : startsWithCh altWatch (c :: cs) with
      | false => rfl
      | true =>
        have : startsWithCh watchAnchor (c :: cs) = true :=
          startsWithCh_mono watchAnchor "v=".toList (c :: cs) (by exact hst)
        rw [h3.1] at this
        exact absurd this (by simp)
    rw [searchPat1_cons, show matchP1At (c :: cs) = none by
        simp [matchP1At, matchAltAt_none hW, matchAltAt_none h1.1, matchAltAt_none h2.1],
      Option.none_orElse]
    exact ih h1.2 h2.2 h3.2

/-- Without the `watch?` anchor, pattern 2 never matches. -/
theorem searchPat2_none : ∀ (s : List Char),
    containsSeq watchAnchor s = false → searchPat2 s = none := by
  intro s
  induction s with
  | nil => intro _; rfl
  | cons c cs ih =>
    intro h
    simp only [containsSeq, Bool.or_eq_false_iff] at h
    rw [searchPat2_cons, show matchP2At (c :: cs) = none by simp [matchP2At, h.1],
      Option.none_orElse]
    exact ih h.2

/-- C1: for the three supported URL shapes the parser returns exactly the
identifier (the first matching pattern rule, captured up to a stop
character), and a string containing none of the URL anchors yields `None`. -/
theorem extract_video_id_spec (id s : List Char) (hne : id ≠ [])
    (hcap : ∀ c ∈ id, stopChar c = false)
    (h1 : containsSeq altShort s = false)
    (h2 : containsSeq altEmbed s = false)
    (h3 : containsSeq watchAnchor s = false) :
    extract_video_id ("https://www.youtube.com/watch?v=".toList ++ id) = some id ∧
    extract_video_id ("https://youtu.be/".toList ++ id) = some id ∧
    extract_video_id ("https://www.youtube.com/embed/".toList ++ id) = some id ∧
    extract_video_id s = none := by
  refine ⟨?_, ?_, ?_, ?_⟩
  · have hW : "https://www.youtube.com/watch?v=".toList ++ id =
        "https://www.".toList ++ (altWatch ++ id) := by
      rw [← List.append_assoc]; rfl
    have hs1 : searchPat1 ("https://www.youtube.com/watch?v=".toList ++ id) = some id := by
      rw [hW, searchPat1_skip _ _ (by decide)]
      exact searchPat1_here (by simp [altWatch]) (matchP1At_watch id hne hcap)
    unfold extract_video_id
    rw [hs1]
    rfl
  · have hS : "https://youtu.be/".toList ++ id =
        "https://".toList ++ (altShort ++ id) := by
      rw [← List.append_assoc]; rfl
    have hs1 : searchPat1 ("https://youtu.be/".toList ++ id) = some id := by
      rw [hS, searchPat1_skip _ _ (by decide)]
      exact searchPat1_here (by simp [altShort]) (matchP1At_short id hne hcap)
    unfold extract_video_id
    rw [hs1]
    rfl
  · have hE : "https://www.youtube.com/embed/".toList ++ id =
        "https://www.".toList ++ (altEmbed ++ id) := by
      rw [← List.append_assoc]; rfl
    have hs1 : searchPat1 ("https://www.youtube.com/embed/".toList ++ id) = some id := by
      rw [hE, searchPat1_skip _ _ (by decide)]
      exact searchPat1_here (by simp [altEmbed]) (matchP1At_embed id hne hcap)
    unfold extract_video_id
    rw [hs1]
    rfl
  · unfold extract_video_id
    rw [searchPat1_none s h1 h2 h3, searchPat2_none s h3]
    rfl

/-! ### UTF-8 round trip -/

/-- Char validity, in arithmetic form. -/
theorem char_valid (c : Char) :
    c.toNat < 55296 ∨ (57343 < c.toNat ∧ c.toNat < 1114112) := c.valid

/-- `utf8DecodeOne` on a single-byte (ASCII) character. -/
theorem utf8DecodeOne_one {x : Nat} (bs : List Nat) (hx : x < 0x80) :
    utf8DecodeOne x bs = some (Char.ofNat x, bs) := by
  unfold utf8DecodeOne
  rw [if_pos hx]

/-- `utf8DecodeOne` on a two-byte sequence. -/
theorem utf8DecodeOne_two {x y : Nat} (rest : List Nat)
    (hx1 : 0xC2 ≤ x) (hx2 : x < 0xE0) (hy : contByte y = true) :
    utf8DecodeOne x (y :: rest) =
      some (Char.ofNat ((x - 0xC0) * 64 + (y - 0x80)), rest) := by
  unfold utf8DecodeOne
  rw [if_neg (by omega), if_neg (by omega), if_pos (by omega)]
  simp [hy]

/-- `utf8DecodeOne` on a three-byte sequence. -/
theorem utf8DecodeOne_three {x y z : Nat} (rest : List Nat)
    (hx1 : 0xE0 ≤ x) (hx2 : x < 0xF0) (hy : contByte y = true) (hz : contByte z = true)
    (hn : ¬((x - 0xE0) * 4096 + (y - 0x80) * 64 + (z - 0x80) < 0x800 ∨
        (0xD800 ≤ (x - 0xE0) * 4096 + (y - 0x80) * 64 + (z - 0x80) ∧
         (x - 0xE0) * 4096 + (y - 0x80) * 64 + (z - 0x80) ≤ 0xDFFF))) :
    utf8DecodeOne x (y :: z :: rest) =
      some (Char.ofNat ((x - 0xE0) * 4096 + (y - 0x80) * 64 + (z - 0x80)), rest) := by
  unfold utf8DecodeOne
  rw [if_neg (by omega), if_neg (by omega), if_neg (by omega), if_pos (by omega)]
  simp only [hy, hz, Bool.and_self, if_pos trivial]
  rw [if_neg hn]

/-- `utf8DecodeOne` on a four-byte sequence. -/
theorem utf8DecodeOne_four {x y z w : Nat} (rest : List Nat)
    (hx1 : 0xF0 ≤ x) (hx2 : x < 0xF5)
    (hy : contByte y = true) (hz : contByte z = true) (hw : contByte w = true)
    (hn : ¬((x - 0xF0) * 262144 + (y - 0x80) * 4096 + (z - 0x80) * 64 + (w - 0x80) < 0x10000 ∨
        0x10FFFF < (x - 0xF0) * 262144 + (y - 0x80) * 4096 + (z - 0x80) * 64 + (w - 0x80))) :
    utf8DecodeOne x (y :: z :: w :: rest) =
      some (Char.ofNat ((x - 0xF0) * 262144 + (y - 0x80) * 4096 +
        (z - 0x80) * 64 + (w - 0x80)), rest) := by
  unfold utf8DecodeOne
  rw [if_neg (by omega), if_neg (by omega), if_neg (by omega), if_neg (by omega),
    if_pos (by omega)]
  simp only [hy, hz, hw, Bool.and_self, if_pos trivial]
  rw [if_neg hn]

/-- Unfolding `utf8Decode` at a decodable position. -/
theorem utf8Decode_cons_some {b : Nat} {bs : List Nat} {c : Char} {r : List Nat}
    (h : utf8DecodeOne b bs = some (c, r)) :
    utf8Decode (b :: bs) = (utf8Decode r).map (fun l => c :: l) := by
  rw [utf8Decode]
  split
  · rename_i heq
    rw [heq] at h
    cases h
  · rename_i c2 r2 heq
    rw [heq] at h
    cases h
    rfl

/-- `bytes.decode()` inverts `str.encode()`. -/
theorem utf8Decode_encode : ∀ (l : List Char), utf8Decode (utf8Encode l) = some l := by
  intro l
  induction l with
  | nil => rw [show utf8Encode [] = [] from rfl, utf8Decode]
  | cons c ls ih =>
    have hv := char_valid c
    rw [show utf8Encode (c :: ls) = utf8EncodeChar c ++ utf8Encode ls from
      List.flatMap_cons ..]
    by_cases h1 : c.toNat < 0x80
    · rw [show utf8EncodeChar c = [c.toNat] from by simp [utf8EncodeChar, h1]]
      rw [List.cons_append, List.nil_append,
        utf8Decode_cons_some (utf8DecodeOne_one _ h1), ih]
      simp [Char.ofNat_toNat]
    · by_cases h2 : c.toNat < 0x800
      · rw [show utf8EncodeChar c = [0xC0 + c.toNat / 64, 0x80 + c.toNat % 64] from by
          simp [utf8EncodeChar, h1, h2]]
        simp only [List.cons_append, List.nil_append]
        rw [utf8Decode_cons_some (utf8DecodeOne_two _ (by omega) (by omega)
          (by simp [contByte]; omega)), ih]
        rw [Option.map_some', show (0xC0 + c.toNat / 64 - 0xC0) * 64 +
          (0x80 + c.toNat % 64 - 0x80) = c.toNat from by omega, Char.ofNat_toNat]
      · by_cases h3 : c.toNat < 0x10000
        · rw [show utf8EncodeChar c =
              [0xE0 + c.toNat / 4096, 0x80 + c.toNat / 64 % 64, 0x80 + c.toNat % 64] from by
            simp [utf8EncodeChar, h1, h2, h3]]
          simp only [List.cons_append, List.nil_append]
          have harg : (0xE0 + c.toNat / 4096 - 0xE0) * 4096 +
              (0x80 + c.toNat / 64 % 64 - 0x80) * 64 + (0x80 + c.toNat % 64 - 0x80)
              = c.toNat := by omega
          rw [utf8Decode_cons_some (utf8DecodeOne_three _ (by omega) (by omega)
            (by simp [contByte]; omega) (by simp [contByte]; omega)
            (by rw [harg]; omega)), ih]
          rw [Option.map_some', harg, Char.ofNat_toNat]
        · rw [show utf8EncodeChar c =
              [0xF0 + c.toNat / 262144, 0x80 + c.toNat / 4096 % 64,
               0x80 + c.toNat / 64 % 64, 0x80 + c.toNat % 64] from by
            simp [utf8EncodeChar, h1, h2, h3]]
          simp only [List.cons_append, List.nil_append]
          have harg : (0xF0 + c.toNat / 262144 - 0xF0) * 262144 +
              (0x80 + c.toNat / 4096 % 64 - 0x80) * 4096 +
              (0x80 + c.toNat / 64 % 64 - 0x80) * 64 + (0x80 + c.toNat % 64 - 0x80)
              = c.toNat := by omega
          rw [utf8Decode_cons_some (utf8DecodeOne_four _ (by omega) (by omega)
            (by simp [contByte]; omega) (by simp [contByte]; omega)
            (by simp [contByte]; omega) (by rw [harg]; omega)), ih]
          rw [Option.map_some', harg, Char.ofNat_toNat]

/-! ### Decimal digits round trip -/

/-- Reading back a digit character. -/
theorem charDigit_digitChar : ∀ d < 10, charDigit (digitChar d) = some d := by decide

/-- A digit character is not JSON whitespace. -/
theorem isJWs_digitChar : ∀ d < 10, isJWs (digitChar d) = false := by decide

/-- A digit character is not a stop character of the C1 capture class and is
not a sign. -/
theorem digitChar_not_minus : ∀ d < 10, ¬ digitChar d = '-' := by decide

/-- `natToChars` always begins with a digit character. -/
theorem natToChars_first (n : Nat) :
    ∃ d rest, natToChars n = digitChar d :: rest ∧ d < 10 := by
  induction n using Nat.strong_induction_on with
  | _ n ih =>
    by_cases h : n < 10
    · exact ⟨n, [], by rw [natToChars, if_pos h], h⟩
    · obtain ⟨d, rest, hd, hd10⟩ := ih (n / 10) (Nat.div_lt_self (by omega) (by omega))
      exact ⟨d, rest ++ [digitChar (n % 10)],
        by rw [natToChars, if_neg h, hd, List.cons_append], hd10⟩

/-- One digit-consuming step of `parseNatAux`. -/
theorem parseNatAux_cons_digit {c : Char} {d : Nat} (hc : charDigit c = some d)
    (acc : Nat) (cs : List Char) :
    parseNatAux acc (c :: cs) = parseNatAux (acc * 10 + d) cs := by
  simp [parseNatAux, hc]

/-- `parseNatAux` stops at a non-digit. -/
theorem parseNatAux_stop {rest : List Char} (h : headNotDigit rest = true)
    (acc : Nat) : parseNatAux acc rest = (acc, rest) := by
  cases rest with
  | nil => rfl
  | cons c cs =>
    simp only [headNotDigit, Option.isNone_iff_eq_none] at h
    simp [parseNatAux, h]

/-- `parseNatAux` absorbs a rendered number into the accumulator. -/
theorem parseNatAux_natToChars (n : Nat) : ∀ (acc : Nat) (rest : List Char),
    ∃ k, parseNatAux acc (natToChars n ++ rest) = parseNatAux (acc * k + n) rest := by
  induction n using Nat.strong_induction_on with
  | _ n ih =>
    intro acc rest
    by_cases h : n < 10
    · refine ⟨10, ?_⟩
      rw [natToChars, if_pos h, List.cons_append, List.nil_append,
        parseNatAux_cons_digit (charDigit_digitChar n h) acc]
    · obtain ⟨k, hk⟩ := ih (n / 10) (Nat.div_lt_self (by omega) (by omega)) acc
        (digitChar (n % 10) :: rest)
      refine ⟨k * 10, ?_⟩
      rw [natToChars, if_neg h, List.append_assoc, List.cons_append, List.nil_append,
        hk, parseNatAux_cons_digit (charDigit_digitChar (n % 10) (by omega))]
      have : (acc * k + n / 10) * 10 + n % 10 = acc * (k * 10) + n := by
        have := Nat.div_add_mod n 10
        ring_nf
        omega
      rw [this]

/-- `parseNat` reads back `natToChars` exactly. -/
theorem parseNat_natToChars (n : Nat) (rest : List Char)
    (h : headNotDigit rest = true) :
    parseNat (natToChars n ++ rest) = some (n, rest) := by
  obtain ⟨d, r2, hn, hd⟩ := natToChars_first n
  obtain ⟨k, hk⟩ := parseNatAux_natToChars n 0 rest
  rw [hn, List.cons_append]
  show parseNat (digitChar d :: (r2 ++ rest)) = some (n, rest)
  rw [show parseNat (digitChar d :: (r2 ++ rest)) =
      some (parseNatAux 0 (digitChar d :: (r2 ++ rest))) from by
    simp [parseNat, charDigit_digitChar d hd]]
  rw [← List.cons_append, ← hn, hk, Nat.zero_mul, Nat.zero_add, parseNatAux_stop h]

/-! ### Two-decimal numbers round trip -/

/-- `parseDecAbs` reads back an unsigned two-decimal rendering. -/
theorem parseDecAbs_print (a f : Nat) (hf : f < 100) (rest : List Char) :
    parseDecAbs (natToChars a ++ '.' :: digitChar (f / 10) :: digitChar (f % 10) :: rest)
      = some ((a : Rat) + (f : Rat) / 100, rest) := by
  unfold parseDecAbs
  rw [parseNat_natToChars a _ (by rfl)]
  simp only [Option.bind_eq_bind, Option.some_bind,
    show charDigit (digitChar (f / 10)) = some (f / 10) from
      charDigit_digitChar _ (by omega),
    show charDigit (digitChar (f % 10)) = some (f % 10) from
      charDigit_digitChar _ (by omega),
    Option.some.injEq, Prod.mk.injEq]
  exact ⟨by rw [show f / 10 * 10 + f % 10 = f from by omega], trivial⟩

/-- A rendering that starts with `'-'` is parsed as a negated unsigned
number. -/
theorem parseSignedDec_minus (t : List Char) :
    parseSignedDec ('-' :: t) = (parseDecAbs t).map (fun p => (-p.1, p.2)) := rfl

/-- A rendering that does not start with `'-'` is parsed as unsigned. -/
theorem parseSignedDec_not_minus {c : Char} (t : List Char) (h : ¬ c = '-') :
    parseSignedDec (c :: t) = parseDecAbs (c :: t) := by
  unfold parseSignedDec
  split
  · rename_i heq
    cases heq
    exact absurd rfl h
  · rfl

/-- Helper: the two-decimal digits and dot of `ratToChars`. -/
theorem natAbs_decimal_value (k : Nat) :
    ((k / 100 : Nat) : Rat) + ((k % 100 : Nat) : Rat) / 100 = (k : Rat) / 100 := by
  have h : k / 100 * 100 + k % 100 = k := by omega
  field_simp
  exact_mod_cast congrArg (fun n : Nat => ((n : Rat))) h

/-- `parseSignedDec` reads back `ratToChars` exactly, for any rational with
two-decimal precision. -/
theorem parseSignedDec_ratToChars (q : Rat) (hq : (q * 100).den = 1)
    (rest : List Char) :
    parseSignedDec (ratToChars q ++ rest) = some (q, rest) := by
  have hm : ((q * 100).num : Rat) = q * 100 := (Rat.den_eq_one_iff _).mp hq
  have hq' : q = ((q * 100).num : Rat) / 100 := by
    rw [hm]
    field_simp
  simp only [ratToChars]
  by_cases hneg : (q * 100).num < 0
  · rw [if_pos hneg]
    simp only [List.cons_append, List.nil_append, List.append_assoc]
    rw [parseSignedDec_minus, parseDecAbs_print _ _ (by omega) _, Option.map_some']
    rw [natAbs_decimal_value]
    have habs : (((q * 100).num.natAbs : Nat) : Rat) = -((q * 100).num : Rat) := by
      push_cast [Int.cast_natAbs]
      rw [abs_of_neg (by exact_mod_cast hneg)]
    rw [habs]
    rw [show -(-((q * 100).num : Rat) / 100) = ((q * 100).num : Rat) / 100 from by ring,
      ← hq']
  · rw [if_neg hneg]
    simp only [List.cons_append, List.nil_append, List.append_assoc]
    obtain ⟨d, r2, hn, hd⟩ := natToChars_first ((q * 100).num.natAbs / 100)
    rw [hn, List.cons_append,
      parseSignedDec_not_minus _ (digitChar_not_minus d hd), ← List.cons_append, ← hn]
    rw [parseDecAbs_print _ _ (by omega) _]
    rw [natAbs_decimal_value]
    have habs : (((q * 100).num.natAbs : Nat) : Rat) = ((q * 100).num : Rat) := by
      push_cast [Int.cast_natAbs]
      rw [abs_of_nonneg (by exact_mod_cast not_lt.mp hneg)]
    rw [habs, ← hq']

/-! ### String escaping round trip -/

/-- Reading back a hexadecimal digit character. -/
theorem hexCharVal_toHexChar : ∀ d < 16, hexCharVal (toHexChar d) = some d := by decide

/-- `hexQuad` reads back `toHex4` exactly. -/
theorem hexQuad_toHex4 (n : Nat) (hn : n < 65536) :
    hexQuad (toHexChar (n / 4096 % 16)) (toHexChar (n / 256 % 16))
      (toHexChar (n / 16 % 16)) (toHexChar (n % 16)) = some n := by
  unfold hexQuad
  rw [hexCharVal_toHexChar _ (by omega), hexCharVal_toHexChar _ (by omega),
    hexCharVal_toHexChar _ (by omega), hexCharVal_toHexChar _ (by omega)]
  simp only [Option.bind_eq_bind, Option.some_bind, Option.some.injEq]
  omega

/-- Unfolding `scanStr` when the step closes the string. -/
theorem scanStr_close {c : Char} {rest r : List Char}
    (h : scanStrStep c rest = some (none, r)) :
    scanStr (c :: rest) = some ([], r) := by
  rw [scanStr]
  split
  · rename_i heq
    rw [heq] at h
    cases h
  · rename_i r2 heq
    rw [heq] at h
    cases h
    rfl
  · rename_i ch r2 heq
    rw [heq] at h
    cases h

/-- Unfolding `scanStr` when the step emits a character. -/
theorem scanStr_emit {c ch : Char} {rest r : List Char}
    (h : scanStrStep c rest = some (some ch, r)) :
    scanStr (c :: rest) = (scanStr r).map (fun p => (ch :: p.1, p.2)) := by
  rw [scanStr]
  split
  · rename_i heq
    rw [heq] at h
    cases h
  · rename_i r2 heq
    rw [heq] at h
    cases h
  · rename_i ch2 r2 heq
    rw [heq] at h
    cases h
    rfl

/-- The scan step on the closing quote. -/
theorem scanStrStep_quote (rest : List Char) :
    scanStrStep '"' rest = some (none, rest) := by
  unfold scanStrStep
  rw [if_pos rfl]

/-- The scan step on a plain character. -/
theorem scanStrStep_lit {c : Char} (rest : List Char) (h1 : ¬ c = '"')
    (h2 : ¬ c = '\\') : scanStrStep c rest = some (some c, rest) := by
  unfold scanStrStep
  rw [if_neg h1, if_neg h2]

/-- The scan step on a single-character escape. -/
theorem scanStrStep_unesc {u v : Char} (r2 : List Char) (hu : ¬ u = 'u')
    (he : unescapeChar u = some v) :
    scanStrStep '\\' (u :: r2) = some (some v, r2) := by
  unfold scanStrStep
  rw [if_neg (by decide), if_pos rfl]
  simp [hu, he]

/-- The scan step on a `\uXXXX` escape outside the surrogate range. -/
theorem scanStrStep_hexBMP (n : Nat) (r3 : List Char) (hn : n < 65536)
    (hs : ¬(0xD800 ≤ n ∧ n ≤ 0xDFFF)) :
    scanStrStep '\\' ('u' :: (toHex4 n ++ r3)) = some (some (Char.ofNat n), r3) := by
  unfold scanStrStep
  rw [if_neg (by decide), if_pos rfl,
    show toHex4 n ++ r3 = toHexChar (n / 4096 % 16) :: toHexChar (n / 256 % 16) ::
      toHexChar (n / 16 % 16) :: toHexChar (n % 16) :: r3 from rfl]
  simp only [reduceIte, hexQuad_toHex4 n hn]
  rw [if_neg (by omega), if_neg (by omega)]

/-- The scan step on a surrogate-pair escape. -/
theorem scanStrStep_hexPair (n m : Nat) (r4 : List Char)
    (hn : 0xD800 ≤ n ∧ n ≤ 0xDBFF) (hm : 0xDC00 ≤ m ∧ m ≤ 0xDFFF) :
    scanStrStep '\\' ('u' :: (toHex4 n ++ ('\\' :: 'u' :: (toHex4 m ++ r4)))) =
      some (some (Char.ofNat (0x10000 + (n - 0xD800) * 1024 + (m - 0xDC00))), r4) := by
  unfold scanStrStep
  rw [if_neg (by decide), if_pos rfl,
    show toHex4 n ++ ('\\' :: 'u' :: (toHex4 m ++ r4)) =
      toHexChar (n / 4096 % 16) :: toHexChar (n / 256 % 16) ::
      toHexChar (n / 16 % 16) :: toHexChar (n % 16) ::
      '\\' :: 'u' :: toHexChar (m / 4096 % 16) :: toHexChar (m / 256 % 16) ::
      toHexChar (m / 16 % 16) :: toHexChar (m % 16) :: r4 from rfl]
  simp only [reduceIte, hexQuad_toHex4 n (by omega)]
  rw [if_pos hn]
  simp only [reduceIte, hexQuad_toHex4 m (by omega)]
  rw [if_pos hm]
  simp

/-- `scanStr` reads back an escaped string body up to its closing quote. -/
theorem scanStr_escapeString : ∀ (l rest : List Char),
    scanStr (escapeString l ++ '"' :: rest) = some (l, rest) := by
  intro l
  induction l with
  | nil =>
    intro rest
    rw [show escapeString [] = [] from rfl, List.nil_append,
      scanStr_close (scanStrStep_quote rest)]
  | cons c ls ih =>
    intro rest
    have hv := char_valid c
    rw [show escapeString (c :: ls) = escapeChar c ++ escapeString ls from
      List.flatMap_cons ..]
    by_cases h1 : c = '"'
    · subst h1
      rw [show escapeChar '"' = ['\\', '"'] from rfl]
      simp only [List.cons_append, List.nil_append, List.append_assoc]
      rw [scanStr_emit (scanStrStep_unesc _ (by decide)
        (show unescapeChar '"' = some '"' from rfl)), ih]
      rfl
    · by_cases h2 : c = '\\'
      · subst h2
        rw [show escapeChar '\\' = ['\\', '\\'] from rfl]
        simp only [List.cons_append, List.nil_append, List.append_assoc]
        rw [scanStr_emit (scanStrStep_unesc _ (by decide)
          (show unescapeChar '\\' = some '\\' from rfl)), ih]
        rfl
      · by_cases h3 : c = '\n'
        · subst h3
          rw [show escapeChar '\n' = ['\\', 'n'] from rfl]
          simp only [List.cons_append, List.nil_append, List.append_assoc]
          rw [scanStr_emit (scanStrStep_unesc _ (by decide)
            (show unescapeChar 'n' = some '\n' from rfl)), ih]
          rfl
        · by_cases h4 : c = '\r'
          · subst h4
            rw [show escapeChar '\r' = ['\\', 'r'] from rfl]
            simp only [List.cons_append, List.nil_append, List.append_assoc]
            rw [scanStr_emit (scanStrStep_unesc _ (by decide)
              (show unescapeChar 'r' = some '\r' from rfl)), ih]
            rfl
          · by_cases h5 : c = '\t'
            · subst h5
              rw [show escapeChar '\t' = ['\\', 't'] from rfl]
              simp only [List.cons_append, List.nil_append, List.append_assoc]
              rw [scanStr_emit (scanStrStep_unesc _ (by decide)
                (show unescapeChar 't' = some '\t' from rfl)), ih]
              rfl
            · by_cases h6 : c = Char.ofNat 8
              · subst h6
                rw [show escapeChar (Char.ofNat 8) = ['\\', 'b'] from rfl]
                simp only [List.cons_append, List.nil_append, List.append_assoc]
                rw [scanStr_emit (scanStrStep_unesc _ (by decide)
                  (show unescapeChar 'b' = some (Char.ofNat 8) from rfl)), ih]
                rfl
              · by_cases h7 : c = Char.ofNat 12
                · subst h7
                  rw [show escapeChar (Char.ofNat 12) = ['\\', 'f'] from rfl]
                  simp only [List.cons_append, List.nil_append, List.append_assoc]
                  rw [scanStr_emit (scanStrStep_unesc _ (by decide)
                    (show unescapeChar 'f' = some (Char.ofNat 12) from rfl)), ih]
                  rfl
                · by_cases h8 : 0x20 ≤ c.toNat ∧ c.toNat ≤ 0x7E
                  · rw [show escapeChar c = [c] from by
                      simp [escapeChar, h1, h2, h3, h4, h5, h6, h7, h8]]
                    simp only [List.cons_append, List.nil_append]
                    rw [scanStr_emit (scanStrStep_lit _ h1 h2), ih]
                    rfl
                  · by_cases h9 : c.toNat < 0x10000
                    · rw [show escapeChar c = '\\' :: 'u' :: toHex4 c.toNat from by
                        simp [escapeChar, h1, h2, h3, h4, h5, h6, h7, h8, h9]]
                      simp only [List.cons_append, List.append_assoc]
                      rw [scanStr_emit (scanStrStep_hexBMP c.toNat _ h9
                        (by omega)), ih, Char.ofNat_toNat]
                      rfl
                    · rw [show escapeChar c = '\\' :: 'u' :: toHex4 (0xD800 + (c.toNat - 0x10000) / 1024) ++
                        '\\' :: 'u' :: toHex4 (0xDC00 + (c.toNat - 0x10000) % 1024) from by
                        simp [escapeChar, h1, h2, h3, h4, h5, h6, h7, h8, h9]]
                      simp only [List.cons_append, List.append_assoc]
                      rw [scanStr_emit (scanStrStep_hexPair
                        (0xD800 + (c.toNat - 0x10000) / 1024)
                        (0xDC00 + (c.toNat - 0x10000) % 1024) _
                        (by omega) (by omega)), ih]
                      rw [show 0x10000 + (0xD800 + (c.toNat - 0x10000) / 1024 - 0xD800) * 1024 +
                        (0xDC00 + (c.toNat - 0x10000) % 1024 - 0xDC00) = c.toNat from by omega,
                        Char.ofNat_toNat]
                      rfl

/-- `parseJString` reads back a printed JSON string literal. -/
theorem parseJString_print (l rest : List Char) :
    parseJString ('"' :: (escapeString l ++ '"' :: rest)) = some (l, rest) := by
  rw [show parseJString ('"' :: (escapeString l ++ '"' :: rest)) =
    scanStr (escapeString l ++ '"' :: rest) from rfl]
  exact scanStr_escapeString l rest

/-! ### Whitespace and field parsing -/

/-- `skipJWs` ignores a leading all-whitespace block. -/
theorem skipJWs_ws_lead : ∀ (ws s : List Char), (∀ c ∈ ws, isJWs c = true) →
    skipJWs (ws ++ s) = skipJWs s := by
  intro ws
  induction ws with
  | nil => intro s _; rfl
  | cons c cs ih =>
    intro s h
    rw [List.cons_append, show skipJWs (c :: (cs ++ s)) = skipJWs (cs ++ s) from by
      simp [skipJWs, List.dropWhile_cons, h c (by simp)]]
    exact ih s (fun d hd => h d (List.mem_cons_of_mem _ hd))

/-- `skipJWs` stops at a non-whitespace head. -/
theorem skipJWs_cons_false {c : Char} (s : List Char) (h : isJWs c = false) :
    skipJWs (c :: s) = c :: s := by
  simp [skipJWs, List.dropWhile_cons, h]

/-- `skipJWs` stops at a rendered number. -/
theorem skipJWs_natToChars (n : Nat) (tail : List Char) :
    skipJWs (natToChars n ++ tail) = natToChars n ++ tail := by
  obtain ⟨d, r2, hd, hd10⟩ := natToChars_first n
  rw [hd, List.cons_append, skipJWs_cons_false _ (isJWs_digitChar d hd10)]

/-- `skipJWs` stops at a rendered two-decimal number. -/
theorem skipJWs_ratToChars (q : Rat) (tail : List Char) :
    skipJWs (ratToChars q ++ tail) = ratToChars q ++ tail := by
  obtain ⟨c, t, hct, hc⟩ : ∃ c t, ratToChars q ++ tail = c :: t ∧ isJWs c = false := by
    simp only [ratToChars]
    by_cases hneg : (q * 100).num < 0
    · rw [if_pos hneg]
      refine ⟨'-', natToChars ((q * 100).num.natAbs / 100) ++
        ('.' :: digitChar ((q * 100).num.natAbs % 100 / 10) ::
          digitChar ((q * 100).num.natAbs % 100 % 10) :: tail), by simp, by decide⟩
    · rw [if_neg hneg]
      obtain ⟨d, r2, hd, hd10⟩ := natToChars_first ((q * 100).num.natAbs / 100)
      refine ⟨digitChar d, r2 ++
        ('.' :: digitChar ((q * 100).num.natAbs % 100 / 10) ::
          digitChar ((q * 100).num.natAbs % 100 % 10) :: tail),
        ?_, isJWs_digitChar d hd10⟩
      rw [hd]
      simp
  rw [hct, skipJWs_cons_false _ hc, ← hct]

/-- Consuming an expected non-whitespace character after a whitespace skip. -/
theorem expectCh_skip {c : Char} (s : List Char) (hc : isJWs c = false) :
    expectCh c (skipJWs (c :: s)) = some s := by
  rw [skipJWs_cons_false s hc]
  simp [expectCh]

/-- `parseKeyCol` consumes a printed key and its colon. -/
theorem parseKeyCol_print (key : String) (tail ws : List Char)
    (hk : escapeString key.toList = key.toList)
    (hws : ∀ c ∈ ws, isJWs c = true) :
    parseKeyCol key (ws ++ ('"' :: (key.toList ++ ('"' :: ':' :: tail))))
      = some tail := by
  unfold parseKeyCol
  rw [skipJWs_ws_lead ws _ hws, skipJWs_cons_false _ (by decide)]
  rw [show key.toList ++ ('"' :: ':' :: tail) =
    escapeString key.toList ++ ('"' :: (':' :: tail)) from by rw [hk]]
  rw [parseJString_print]
  simp only [Option.bind_eq_bind, Option.some_bind, reduceIte, if_pos rfl]
  rw [expectCh_skip tail (by decide)]

/-- `parseNatFieldC` reads back a printed natural-number member. -/
theorem parseNatFieldC_print (key : String) (n : Nat) (ws tail : List Char)
    (hk : escapeString key.toList = key.toList)
    (hws : ∀ c ∈ ws, isJWs c = true) :
    parseNatFieldC key
      (ws ++ ('"' :: (key.toList ++ ('"' :: ':' :: ' ' :: (natToChars n ++ ',' :: tail)))))
      = some (n, tail) := by
  unfold parseNatFieldC
  rw [parseKeyCol_print key _ ws hk hws]
  simp only [Option.some_bind]
  rw [show skipJWs (' ' :: (natToChars n ++ ',' :: tail)) = natToChars n ++ ',' :: tail
    from by
      rw [show (' ' :: (natToChars n ++ ',' :: tail)) =
        [' '] ++ (natToChars n ++ ',' :: tail) from rfl,
        skipJWs_ws_lead [' '] _ (by decide), skipJWs_natToChars]]
  rw [parseNat_natToChars n _ (by rfl)]
  simp only [Option.some_bind]
  rw [expectCh_skip tail (by decide)]
  rfl

/-- `parseDecFieldC` reads back a printed two-decimal member. -/
theorem parseDecFieldC_print (key : String) (q : Rat) (ws tail : List Char)
    (hk : escapeString key.toList = key.toList)
    (hq : (q * 100).den = 1)
    (hws : ∀ c ∈ ws, isJWs c = true) :
    parseDecFieldC key
      (ws ++ ('"' :: (key.toList ++ ('"' :: ':' :: ' ' :: (ratToChars q ++ ',' :: tail)))))
      = some (q, tail) := by
  unfold parseDecFieldC
  rw [parseKeyCol_print key _ ws hk hws]
  simp only [Option.some_bind]
  rw [show skipJWs (' ' :: (ratToChars q ++ ',' :: tail)) = ratToChars q ++ ',' :: tail
    from by
      rw [show (' ' :: (ratToChars q ++ ',' :: tail)) =
        [' '] ++ (ratToChars q ++ ',' :: tail) from rfl,
        skipJWs_ws_lead [' '] _ (by decide), skipJWs_ratToChars]]
  rw [parseSignedDec_ratToChars q hq]
  simp only [Option.some_bind]
  rw [expectCh_skip tail (by decide)]
  rfl

/-- `parseLastDecField` reads back the final member and the closing brace. -/
theorem parseLastDecField_print (key : String) (q : Rat) (ws : List Char)
    (hk : escapeString key.toList = key.toList)
    (hq : (q * 100).den = 1)
    (hws : ∀ c ∈ ws, isJWs c = true) :
    parseLastDecField key
      (ws ++ ('"' :: (key.toList ++ ('"' :: ':' :: ' ' ::
        (ratToChars q ++ '\n' :: '\x7d' :: []))))) = some q := by
  unfold parseLastDecField
  rw [parseKeyCol_print key _ ws hk hws]
  simp only [Option.some_bind]
  rw [show skipJWs (' ' :: (ratToChars q ++ '\n' :: '\x7d' :: [])) =
      ratToChars q ++ '\n' :: '\x7d' :: [] from by
    rw [show (' ' :: (ratToChars q ++ '\n' :: '\x7d' :: [])) =
      [' '] ++ (ratToChars q ++ '\n' :: '\x7d' :: []) from rfl,
      skipJWs_ws_lead [' '] _ (by decide), skipJWs_ratToChars]]
  rw [parseSignedDec_ratToChars q hq]
  simp only [Option.some_bind]
  rw [show skipJWs ('\n' :: '\x7d' :: []) = '\x7d' :: [] from by
    rw [show ('\n' :: '\x7d' :: []) = ['\n'] ++ ('\x7d' :: []) from rfl,
      skipJWs_ws_lead ['\n'] _ (by decide), skipJWs_cons_false _ (by decide)]]
  rw [show expectCh '\x7d' ('\x7d' :: []) = some [] from by simp [expectCh]]
  simp only [Option.some_bind]
  rfl

/-! ### The `top_words` array -/

/-- Consuming an expected character from an exposed head. -/
theorem expectCh_self (c : Char) (s : List Char) : expectCh c (c :: s) = some s := by
  simp [expectCh]

/-- `parsePair` reads back one printed pair. -/
theorem parsePair_print (p : List Char × Nat) (ws rest : List Char)
    (hws : ∀ c ∈ ws, isJWs c = true) :
    parsePair (ws ++ (pairChars p ++ rest)) = some (p, rest) := by
  obtain ⟨w, n⟩ := p
  unfold parsePair
  rw [skipJWs_ws_lead ws _ hws]
  rw [show pairChars (w, n) ++ rest = '[' :: ("\n      ".toList ++ ('"' ::
    (escapeString w ++ ('"' :: (',' :: ("\n      ".toList ++ (natToChars n ++
    ("\n    ".toList ++ (']' :: rest))))))))) from by
      simp [pairChars, List.append_assoc]]
  rw [skipJWs_cons_false _ (by decide), expectCh_self]
  simp only [Option.bind_eq_bind, Option.some_bind]
  rw [skipJWs_ws_lead "\n      ".toList _ (by decide),
    skipJWs_cons_false _ (by decide), parseJString_print]
  simp only [Option.some_bind]
  rw [expectCh_skip _ (by decide)]
  simp only [Option.some_bind]
  rw [skipJWs_ws_lead "\n      ".toList _ (by decide), skipJWs_natToChars,
    parseNat_natToChars n _ (by rfl)]
  simp only [Option.some_bind]
  rw [skipJWs_ws_lead "\n    ".toList _ (by decide), expectCh_skip _ (by decide)]
  rfl

/-- The first pair of a non-empty `top_words` rendering starts with `[`. -/
theorem joinPairs_head (p : List Char × Nat) (t : List (List Char × Nat)) :
    ∃ u, joinPairs (p :: t) = '[' :: u := by
  cases t with
  | nil => exact ⟨_, rfl⟩
  | cons q qs => exact ⟨_, rfl⟩

/-- Each printed pair contributes at least one character. -/
theorem joinPairs_length_ge : ∀ (l : List (List Char × Nat)),
    l.length ≤ (joinPairs l).length := by
  intro l
  induction l with
  | nil => exact Nat.le_refl _
  | cons p t ih =>
    cases t with
    | nil => simp [joinPairs, pairChars]
    | cons q qs =>
      rw [show joinPairs (p :: q :: qs) =
        pairChars p ++ ",\n    ".toList ++ joinPairs (q :: qs) from rfl]
      have hq := ih
      simp only [List.length_cons] at hq
      simp [pairChars, List.length_append]
      omega

/-- `parsePairsAux` reads back the printed pairs of a non-empty array. -/
theorem parsePairsAux_print : ∀ (l : List (List Char × Nat)) (fuel : Nat)
    (ws rest : List Char), l ≠ [] → l.length ≤ fuel →
    (∀ c ∈ ws, isJWs c = true) →
    parsePairsAux fuel (ws ++ (joinPairs l ++ ("\n  ".toList ++ (']' :: rest))))
      = some (l, rest) := by
  intro l
  induction l with
  | nil => intro fuel ws rest hne _ _; exact absurd rfl hne
  | cons p t ih =>
    intro fuel ws rest _ hlen hws
    cases fuel with
    | zero => simp at hlen
    | succ f =>
      cases t with
      | nil =>
        rw [show joinPairs [p] = pairChars p from rfl]
        unfold parsePairsAux
        rw [parsePair_print p ws _ hws]
        simp only [Option.bind_eq_bind, Option.some_bind]
        rw [skipJWs_ws_lead "\n  ".toList _ (by decide),
          skipJWs_cons_false _ (by decide)]
        rfl
      | cons q qs =>
        rw [show ws ++ (joinPairs (p :: q :: qs) ++ ("\n  ".toList ++ (']' :: rest)))
            = ws ++ (pairChars p ++ (',' :: ("\n    ".toList ++ (joinPairs (q :: qs) ++
              ("\n  ".toList ++ (']' :: rest)))))) from by
          simp [joinPairs, List.append_assoc]]
        unfold parsePairsAux
        rw [parsePair_print p ws _ hws]
        simp only [Option.bind_eq_bind, Option.some_bind]
        rw [skipJWs_cons_false _ (by decide)]
        show (parsePairsAux f ("\n    ".toList ++ (joinPairs (q :: qs) ++
          ("\n  ".toList ++ (']' :: rest))))).map (fun z => (p :: z.1, z.2))
          = some (p :: q :: qs, rest)
        rw [ih f "\n    ".toList rest (by simp) (by simp at hlen ⊢; omega) (by decide)]
        rfl

/-- `parsePairList` reads back the printed `top_words` array. -/
theorem parsePairList_print (l : List (List Char × Nat)) (ws rest : List Char)
    (hws : ∀ c ∈ ws, isJWs c = true) :
    parsePairList (ws ++ (topWordsChars l ++ rest)) = some (l, rest) := by
  unfold parsePairList
  cases l with
  | nil =>
    rw [show ws ++ (topWordsChars [] ++ rest) = ws ++ ('[' :: (']' :: rest)) from by
      simp [topWordsChars]]
    rw [skipJWs_ws_lead ws _ hws, skipJWs_cons_false _ (by decide), expectCh_self]
    simp only [Option.bind_eq_bind, Option.some_bind]
    rw [skipJWs_cons_false _ (by decide)]
    rfl
  | cons p t =>
    obtain ⟨u, hu⟩ := joinPairs_head p t
    rw [show ws ++ (topWordsChars (p :: t) ++ rest) = ws ++ ('[' :: ("\n    ".toList ++
      (joinPairs (p :: t) ++ ("\n  ".toList ++ (']' :: rest))))) from by
        simp [topWordsChars, List.append_assoc]]
    rw [skipJWs_ws_lead ws _ hws, skipJWs_cons_false _ (by decide), expectCh_self]
    simp only [Option.bind_eq_bind, Option.some_bind]
    rw [show skipJWs ("\n    ".toList ++ (joinPairs (p :: t) ++
        ("\n  ".toList ++ (']' :: rest)))) = '[' :: (u ++ ("\n  ".toList ++ (']' :: rest)))
      from by
        rw [skipJWs_ws_lead "\n    ".toList _ (by decide), hu, List.cons_append,
          skipJWs_cons_false _ (by decide)]]
    rw [show (match ('[' : Char) :: (u ++ ("\n  ".toList ++ (']' :: rest))) with
        | ']' :: r2 => some (([] : List (List Char × Nat)), r2)
        | _ => parsePairsAux (("\n    ".toList ++ (joinPairs (p :: t) ++
            ("\n  ".toList ++ (']' :: rest)))).length + 1)
            ("\n    ".toList ++ (joinPairs (p :: t) ++ ("\n  ".toList ++ (']' :: rest)))))
        = parsePairsAux (("\n    ".toList ++ (joinPairs (p :: t) ++
            ("\n  ".toList ++ (']' :: rest)))).length + 1)
            ("\n    ".toList ++ (joinPairs (p :: t) ++ ("\n  ".toList ++ (']' :: rest))))
      from rfl]
    rw [parsePairsAux_print (p :: t) _ "\n    ".toList rest (by simp)
      (by
        have h1 := joinPairs_length_ge (p :: t)
        simp only [List.length_cons] at h1
        simp [List.length_append]
        omega)
      (by decide)]

/-- `parseTopWordsFieldC` reads back the printed `top_words` member. -/
theorem parseTopWordsFieldC_print (l : List (List Char × Nat)) (ws tail : List Char)
    (hws : ∀ c ∈ ws, isJWs c = true) :
    parseTopWordsFieldC (ws ++ ('"' :: ("top_words".toList ++ ('"' :: ':' :: ' ' ::
      (topWordsChars l ++ ',' :: tail))))) = some (l, tail) := by
  unfold parseTopWordsFieldC
  rw [parseKeyCol_print "top_words" _ ws (by rfl) hws]
  simp only [Option.some_bind]
  rw [show (' ' :: (topWordsChars l ++ ',' :: tail)) =
    [' '] ++ (topWordsChars l ++ (',' :: tail)) from rfl]
  rw [parsePairList_print l [' '] _ (by decide)]
  simp only [Option.some_bind]
  rw [expectCh_skip tail (by decide)]
  rfl

/-- `json.loads` inverts `json.dumps` on the analysis record (the two float
fields carry two-decimal rationals, as `round(x, 2)` produces). -/
theorem json_loads_dumps (r : AnalysisResult)
    (hss : (r.speaking_speed * 100).den = 1)
    (hed : (r.estimated_duration * 100).den = 1) :
    json_loads_analysis (json_dumps_analysis r) = some r := by
  unfold json_loads_analysis
  rw [show json_dumps_analysis r = '\x7b' :: ("\n  ".toList ++ ('"' :: ("word_count".toList ++ ('"' :: ':' :: ' ' :: (natToChars r.word_count ++ ',' :: ("\n  ".toList ++ ('"' :: ("character_count".toList ++ ('"' :: ':' :: ' ' :: (natToChars r.character_count ++ ',' :: ("\n  ".toList ++ ('"' :: ("speaking_speed".toList ++ ('"' :: ':' :: ' ' :: (ratToChars r.speaking_speed ++ ',' :: ("\n  ".toList ++ ('"' :: ("top_words".toList ++ ('"' :: ':' :: ' ' :: (topWordsChars r.top_words ++ ',' :: ("\n  ".toList ++ ('"' :: ("estimated_duration".toList ++ ('"' :: ':' :: ' ' :: (ratToChars r.estimated_duration ++ '\n' :: '\x7d' :: [])))))))))))))))))))))))))
    from by simp [json_dumps_analysis, List.append_assoc]]
  rw [expectCh_skip _ (by decide)]
  simp only [Option.some_bind]
  rw [parseNatFieldC_print "word_count" r.word_count "\n  ".toList _ (by rfl) (by decide)]
  simp only [Option.some_bind]
  rw [parseNatFieldC_print "character_count" r.character_count "\n  ".toList _
    (by rfl) (by decide)]
  simp only [Option.some_bind]
  rw [parseDecFieldC_print "speaking_speed" r.speaking_speed "\n  ".toList _
    (by rfl) hss (by decide)]
  simp only [Option.some_bind]
  rw [parseTopWordsFieldC_print r.top_words "\n  ".toList _ (by decide)]
  simp only [Option.some_bind]
  rw [parseLastDecField_print "estimated_duration" r.estimated_duration "\n  ".toList
    (by rfl) hed (by decide)]
  rfl

/-- `round(x, 2)` always yields a two-decimal rational. -/
theorem round2_den (x : Rat) : (round2 x * 100).den = 1 := by
  unfold round2
  rw [div_mul_cancel₀ _ (by norm_num : (100 : Rat) ≠ 0)]
  exact Rat.den_intCast _

/-- Decoding and deserializing the exported buffer restores the record. -/
theorem export_roundtrip_aux (r : AnalysisResult)
    (hss : (r.speaking_speed * 100).den = 1)
    (hed : (r.estimated_duration * 100).den = 1) :
    (utf8Decode (export_to_json r)).bind json_loads_analysis = some r := by
  unfold export_to_json
  rw [utf8Decode_encode, Option.some_bind, json_loads_dumps r hss hed]

/-- C6: JSON export round-trips: decoding the byte buffer written by
`export_to_json` and parsing it as JSON restores the structured record
exactly - for every record whose two float fields carry two-decimal values
(as `round(x, 2)` produces), and in particular for every record returned by
`analyze_transcript`, whose `top_words` is a list of (word, count) pairs. -/
theorem export_to_json_roundtrip :
    (∀ r : AnalysisResult, (r.speaking_speed * 100).den = 1 →
      (r.estimated_duration * 100).den = 1 →
      (utf8Decode (export_to_json r)).bind json_loads_analysis = some r) ∧
    (∀ t : List Char,
      (utf8Decode (export_to_json (analyze_transcript t))).bind json_loads_analysis
        = some (analyze_transcript t)) := by
  constructor
  · exact export_roundtrip_aux
  · intro t
    exact export_roundtrip_aux _ (round2_den _) (round2_den _)

/-- C6 witness: the round trip evaluated on a concrete transcript. -/
theorem export_to_json_roundtrip_witness :
    (utf8Decode (export_to_json (analyze_transcript "the quick brown fox".toList))).bind
      json_loads_analysis = some (analyze_transcript "the quick brown fox".toList) :=
  export_to_json_roundtrip.1 _ (round2_den _) (round2_den _)

/-- C1 witness: the three supported URL shapes at the concrete identifier
`abc123`, and a plain string with no URL anchor in it. -/
theorem extract_video_id_spec_witness :
    extract_video_id ("https://www.youtube.com/watch?v=".toList ++ "abc123".toList)
        = some "abc123".toList ∧
    extract_video_id ("https://youtu.be/".toList ++ "abc123".toList)
        = some "abc123".toList ∧
    extract_video_id ("https://www.youtube.com/embed/".toList ++ "abc123".toList)
        = some "abc123".toList ∧
    extract_video_id "hello world".toList = none :=
  extract_video_id_spec "abc123".toList "hello world".toList (by decide) (by decide)
    (by decide) (by decide) (by decide)

/-- C8 witness: two transcripts that agree on their first 1000 characters
but differ beyond, an echoing model and a failing model. -/
theorem llm_spec_witness :
    extract_keywords (fun s => Except.ok s) (List.replicate 1001 'a')
        = extract_keywords (fun s => Except.ok s) (List.replicate 1002 'a') ∧
    analyze_sentiment (fun s => Except.ok s) (List.replicate 1001 'a')
        = analyze_sentiment (fun s => Except.ok s) (List.replicate 1002 'a') ∧
    extract_keywords (fun _ => Except.error ['x']) (List.replicate 1001 'a')
        = "Unable to extract keywords".toList ∧
    analyze_sentiment (fun _ => Except.error ['x']) (List.replicate 1001 'a')
        = "Unable to analyze sentiment".toList ∧
    generate_gemini_content (fun _ => Except.error ['x']) (List.replicate 1001 'a') []
        = Except.error ['x'] :=
  llm_spec (fun s => Except.ok s) (List.replicate 1001 'a') (List.replicate 1002 'a')
    [] ['x'] (by rw [List.take_replicate, List.take_replicate]; norm_num)

/-- C7 witness: a concrete batch input under concrete oracles whose model
answers every prompt by echoing it. -/
theorem batch_processing_spec_witness :
    (∃ rs, processBatch (fun v => Except.ok [v]) (fun _ => Except.error [])
        (fun s => Except.ok s) [] "https://youtu.be/abc123".toList = .ok rs ∧
       rs.map (fun r => r.url)
         = (parseBatchUrls "https://youtu.be/abc123".toList).filter
             (acceptsUrl (fun v => Except.ok [v]))) ∧
    ((∀ u ∈ splitNL "https://youtu.be/abc123".toList, pyStrip u = []) →
       parseBatchUrls "https://youtu.be/abc123".toList = [] ∧
       processBatch (fun v => Except.ok [v]) (fun _ => Except.error [])
         (fun s => Except.ok s) [] "https://youtu.be/abc123".toList = .ok []) :=
  batch_processing_spec _ _ _ _ _ (fun s => ⟨s, rfl⟩)

end App
